import Mathlib

/-!
# jwtxx: the token engine of `src/jwt.cpp`

A shallow embedding of `jwt.cpp` (splitting of the wire form, the algorithm
registry, keys, the claim validators and the three construction flows of the
token entity), followed by theorems about it.

Conventions of the embedding

* `std::string` is a list of characters (`Str`); `npos` is `Option.none`.
* A C++ exception is the `Except.error` result; the exception types are the
  constructors of `Error`.
* `Pairs` (the string to string map of `jwt.h`) is an association list that is
  read by first match.
* The collaborators declared in `base64url.h`, `json.h`, `hmackey.h` and
  `pemkey.h` are external to `jwt.cpp`: their functions are the fields of
  `Collab`, and the theorems hold for every value of it.
* `JWT::verify` and the verifying constructor return, next to their result, the
  record of the validators they invoked (`Run`), so that the order of the
  invocations can be stated.
-/

set_option autoImplicit false

deriving instance DecidableEq for Except

namespace JWTXX

/-- A `std::string`: the sequence of its characters. -/
abbrev Str := List Char

/-- The two `std::logic_error` exceptions of the standard library that occur. -/
inductive LogicError where
  | invalid_argument
  | out_of_range
  deriving DecidableEq, Repr

/-- Exceptions that leave the functions of `jwt.cpp`, by exception type. -/
inductive Error where
  /-- The exception `JWT::Error(what)`. -/
  | jwt (what : Str)
  /-- The exception `JWTXX::Error(what)`, the `Error` of `JWTXX::stringToAlg`. -/
  | jwtxx (what : Str)
  /-- A `std::logic_error` of the standard library. -/
  | logic (e : LogicError)
  /-- An exception raised inside a collaborator (key, base64url, JSON). -/
  | collaborator (what : Str)
  deriving DecidableEq, Repr

/-- The error of `split`: the token has no separator (MalformedToken). -/
def Error.malformedToken : Error :=
  Error.jwt "JWT should have at least 2 parts separated by a dot.".toList

/-- The error of the verifying constructor on a rejected signature (SignatureInvalid). -/
def Error.signatureInvalid : Error :=
  Error.jwt "Signature is invalid.".toList

/-- The error of the verifying constructor on a rejecting validator (ValidationFailed). -/
def Error.validationFailed : Error :=
  Error.jwt "Invalid token.".toList

/-- The error of `stringToAlg` on an unknown name (InvalidAlgorithm). -/
def Error.invalidAlgorithm (value : Str) : Error :=
  Error.jwtxx ("Invalid algorithm name: '".toList ++ value ++ "'.".toList)

/-! ## `std::string` operations used by `split` -/

/-- Scan for `c`, the head of the list having index `i`. -/
def findFrom (c : Char) : Str → Nat → Option Nat
  | [], _ => none
  | x :: xs, i => if x = c then some i else findFrom c xs (i + 1)

/-- The call `s.find_first_of(c, pos)`: the least index `i ≥ pos` with `s[i] == c`,
or `none` for `npos`. -/
def find_first_of (s : Str) (c : Char) (pos : Nat) : Option Nat :=
  findFrom c (s.drop pos) pos

/-- The call `s.substr(pos, n)`: throws `std::out_of_range` when `pos > s.size()`,
otherwise the at most `n` characters from index `pos` on. -/
def substr (s : Str) (pos n : Nat) : Except Error Str :=
  if pos > s.length then Except.error (Error.logic LogicError.out_of_range)
  else Except.ok ((s.drop pos).take n)

/-- The function `split` of `jwt.cpp`. The `size_t` differences
`token.length() - pos - 1` and `spos - pos - 1` do not wrap, since
`pos < spos < token.length()` (see `findFrom_bounds`). -/
def split (token : Str) : Except Error (Str × Str × Str) :=
  match find_first_of token '.' 0 with
  | none => Except.error Error.malformedToken
  | some pos =>
    match find_first_of token '.' (pos + 1) with
    | none => do
      let p0 ← substr token 0 pos
      let p1 ← substr token (pos + 1) (token.length - pos - 1)
      pure (p0, p1, [])
    | some spos => do
      let p0 ← substr token 0 pos
      let p1 ← substr token (pos + 1) (spos - pos - 1)
      let p2 ← substr token (spos + 1) (token.length - spos - 1)
      pure (p0, p1, p2)

/-! ## Algorithm registry -/

/-- The enumeration `JWTXX::Algorithm`. -/
inductive Algorithm where
  | none | HS256 | HS384 | HS512 | RS256 | RS384 | RS512 | ES256 | ES384 | ES512
  deriving DecidableEq, Repr

/-- The function `JWTXX::algToString`. -/
def algToString : Algorithm → Str
  | Algorithm.none => "none".toList
  | Algorithm.HS256 => "HS256".toList
  | Algorithm.HS384 => "HS384".toList
  | Algorithm.HS512 => "HS512".toList
  | Algorithm.RS256 => "RS256".toList
  | Algorithm.RS384 => "RS384".toList
  | Algorithm.RS512 => "RS512".toList
  | Algorithm.ES256 => "ES256".toList
  | Algorithm.ES384 => "ES384".toList
  | Algorithm.ES512 => "ES512".toList

/-- The function `JWTXX::stringToAlg`. -/
def stringToAlg (value : Str) : Except Error Algorithm :=
  if value = "none".toList then Except.ok Algorithm.none
  else if value = "HS256".toList then Except.ok Algorithm.HS256
  else if value = "HS384".toList then Except.ok Algorithm.HS384
  else if value = "HS512".toList then Except.ok Algorithm.HS512
  else if value = "RS256".toList then Except.ok Algorithm.RS256
  else if value = "RS384".toList then Except.ok Algorithm.RS384
  else if value = "RS512".toList then Except.ok Algorithm.RS512
  else if value = "ES256".toList then Except.ok Algorithm.ES256
  else if value = "ES384".toList then Except.ok Algorithm.ES384
  else if value = "ES512".toList then Except.ok Algorithm.ES512
  else Except.error (Error.invalidAlgorithm value)

/-- The ten canonical algorithm names of the specification. -/
def canonicalNames : List Str :=
  ["none".toList, "HS256".toList, "HS384".toList, "HS512".toList, "RS256".toList,
   "RS384".toList, "RS512".toList, "ES256".toList, "ES384".toList, "ES512".toList]

/-! ## The map type `Pairs` -/

/-- Modelled from the spec: the type `Pairs`, declared in `jwt.h`, is a mapping
from strings to string values with unique keys. It is represented by the list of
its entries; an entry is looked up by first match, so every key has at most one
visible value. -/
structure Pairs where
  entries : List (Str × Str)
  deriving DecidableEq, Repr

/-- Look up a key in a list of entries. -/
def lookupEntry : List (Str × Str) → Str → Option Str
  | [], _ => none
  | (k, v) :: m, name => if k = name then some v else lookupEntry m name

/-- The call `m.find(name)`: the mapped value, or `none` for `std::end(m)`. -/
def Pairs.find (m : Pairs) (name : Str) : Option Str :=
  lookupEntry m.entries name

/-- Assign to a key in a list of entries: replace the value of the entry, or add
an entry when there is none. -/
def assignEntry : List (Str × Str) → Str → Str → List (Str × Str)
  | [], name, value => [(name, value)]
  | (k, v) :: m, name, value =>
    if k = name then (k, value) :: m else (k, v) :: assignEntry m name value

/-- The statement `m[name] = value`. -/
def Pairs.assign (m : Pairs) (name value : Str) : Pairs :=
  ⟨assignEntry m.entries name value⟩

/-- The expression `m[name]` on a map that is not const: when there is no entry
under `name`, one with the empty string is added first. Returns the mapped value
and the map afterwards. -/
def Pairs.index (m : Pairs) (name : Str) : Str × Pairs :=
  match m.find name with
  | some value => (value, m)
  | none => ([], m.assign name [])

/-! ## Collaborators and keys -/

/-- The interface `Key::Impl`: `sign(data, size)` and `verify(data, size, signature)`. -/
structure KeyImpl where
  sign : Str → Except Error Str
  verify : Str → Str → Except Error Bool

/-- The digests `EVP_sha256()`, `EVP_sha384()`, `EVP_sha512()` handed to the key classes. -/
inductive Digest where
  | sha256 | sha384 | sha512
  deriving DecidableEq, Repr

/-- The collaborators of `jwt.cpp`, as parameters: the functions of
`base64url.h` and `json.h` and the key classes of `hmackey.h` and `pemkey.h`.
Serialising (`Base64URL::encode`, `toJSON`) returns a text; decoding, parsing
and everything about keys may raise. -/
structure Collab where
  /-- The call `Base64URL::encode(data)`. -/
  b64encode : Str → Str
  /-- The call `Base64URL::decode(text).toString()`. -/
  b64decode : Str → Except Error Str
  /-- The call `toJSON(pairs)`. -/
  toJSON : Pairs → Str
  /-- The call `fromJSON(text)`. -/
  fromJSON : Str → Except Error Pairs
  /-- The expression `new Keys::HMAC(digest, keyData)`. -/
  hmac : Digest → Str → Except Error KeyImpl
  /-- The expression `new Keys::PEM(digest, keyData)`. -/
  pem : Digest → Str → Except Error KeyImpl

/-- The expression `fromJSON(Base64URL::decode(segment).toString())`. -/
def Collab.decodeSegment (X : Collab) (segment : Str) : Except Error Pairs :=
  match X.b64decode segment with
  | Except.error e => Except.error e
  | Except.ok text => X.fromJSON text

/-- The expression `Base64URL::encode(toJSON(pairs))`. -/
def Collab.encodeSegment (X : Collab) (pairs : Pairs) : Str :=
  X.b64encode (X.toJSON pairs)

/-- The struct `NoneKey`: `sign` returns the empty string, `verify` returns true. -/
def NoneKey : KeyImpl where
  sign := fun _ => Except.ok []
  verify := fun _ _ => Except.ok true

/-- The function `createKey` of `jwt.cpp`. -/
def createKey (X : Collab) (alg : Algorithm) (keyData : Str) : Except Error KeyImpl :=
  match alg with
  | Algorithm.none => Except.ok NoneKey
  | Algorithm.HS256 => X.hmac Digest.sha256 keyData
  | Algorithm.HS384 => X.hmac Digest.sha384 keyData
  | Algorithm.HS512 => X.hmac Digest.sha512 keyData
  | Algorithm.RS256 => X.pem Digest.sha256 keyData
  | Algorithm.RS384 => X.pem Digest.sha384 keyData
  | Algorithm.RS512 => X.pem Digest.sha512 keyData
  | Algorithm.ES256 => X.pem Digest.sha256 keyData
  | Algorithm.ES384 => X.pem Digest.sha384 keyData
  | Algorithm.ES512 => X.pem Digest.sha512 keyData

/-- The class `Key`: the members `m_alg` and `m_impl`. -/
structure Key where
  m_alg : Algorithm
  m_impl : KeyImpl

/-- The constructor `Key::Key(Algorithm alg, const std::string& keyData)`. -/
def Key.construct (X : Collab) (alg : Algorithm) (keyData : Str) : Except Error Key :=
  match createKey X alg keyData with
  | Except.error e => Except.error e
  | Except.ok impl => Except.ok ⟨alg, impl⟩

/-- The accessor `Key::alg`. -/
def Key.alg (key : Key) : Algorithm := key.m_alg

/-- The method `Key::sign`. -/
def Key.sign (key : Key) (data : Str) : Except Error Str :=
  key.m_impl.sign data

/-- The method `Key::verify`. -/
def Key.verify (key : Key) (data signature : Str) : Except Error Bool :=
  key.m_impl.verify data signature

/-! ## Validators -/

/-- Modelled from the spec: the type `Validator`, declared in `jwt.h`, is a
predicate over the claims. -/
abbrev Validator := Pairs → Bool

/-- The C function `isspace` in the "C" locale. -/
def isspace (c : Char) : Bool :=
  c = ' ' || c = '\t' || c = '\n' || c = '\x0b' || c = '\x0c' || c = '\r'

/-- The value of a decimal digit character. -/
def digitVal (c : Char) : Nat := c.toNat - '0'.toNat

/-- The number written by a run of decimal digits, most significant digit first. -/
def decimalValue (ds : Str) : Nat :=
  ds.foldl (fun acc c => 10 * acc + digitVal c) 0

/-- The greatest `unsigned long long`. -/
def ULLONG_MAX : Nat := 2 ^ 64 - 1

/-- The sign that `strtoull` accepts in front of the digits: whether it is a
minus, its length, and the text after it. -/
def stripSign (s : Str) : Bool × Nat × Str :=
  match s with
  | [] => (false, 0, [])
  | c :: r =>
    if c = '-' then (true, 1, r)
    else if c = '+' then (false, 1, r)
    else (false, 0, c :: r)

/-- The call `std::stoull(str, &pos)` (base 10): skip white space, read an
optional sign and the longest run of digits. No digit: `std::invalid_argument`.
A number above `ULLONG_MAX`: `std::out_of_range`. Otherwise the value (negated
modulo `2 ^ 64` after a minus sign) and `pos`, the number of characters read. -/
def stoull (str : Str) : Except LogicError (Nat × Nat) :=
  let ws := str.takeWhile isspace
  let signed := stripSign (str.dropWhile isspace)
  let ds := signed.2.2.takeWhile Char.isDigit
  if ds = [] then Except.error LogicError.invalid_argument
  else if decimalValue ds > ULLONG_MAX then Except.error LogicError.out_of_range
  else
    let v := decimalValue ds
    Except.ok (if signed.1 then (2 ^ 64 - v) % 2 ^ 64 else v, ws.length + signed.2.1 + ds.length)

/-- The conversion of an `unsigned long long` to `std::time_t`, taken to be the
signed 64-bit integer of the LP64 platforms: the value modulo `2 ^ 64` in the
range from `-2 ^ 63` to `2 ^ 63 - 1`. -/
def to_time_t (t : Nat) : Int :=
  if t % 2 ^ 64 < 2 ^ 63 then ((t % 2 ^ 64 : Nat) : Int) else ((t % 2 ^ 64 : Nat) : Int) - 2 ^ 64

/-- The template `validTime`: `next` receives the `unsigned long long` that
`std::stoull` returned; both exceptions of `std::stoull` are `std::logic_error`s
and are caught. -/
def validTime (value : Str) (next : Nat → Bool) : Bool :=
  match stoull value with
  | Except.error _ => false
  | Except.ok (t, pos) => if pos ≠ value.length then false else next t

/-- The template `validClaim`. -/
def validClaim (claims : Pairs) (claim : Str) (next : Str → Bool) : Bool :=
  match claims.find claim with
  | none => true
  | some value => next value

/-- The template `validTimeClaim`. -/
def validTimeClaim (claims : Pairs) (claim : Str) (next : Nat → Bool) : Bool :=
  validClaim claims claim (fun value => validTime value next)

/-- The function `stringValidator`. -/
def stringValidator (name validValue : Str) : Validator :=
  fun claims => validClaim claims name (fun value => decide (value = validValue))

/-- The function `Validate::exp`: its lambda takes a `std::time_t value`, so the
parsed number is converted before the comparison `value > now`. -/
def Validate.exp (now : Int) : Validator :=
  fun claims => validTimeClaim claims "exp".toList (fun t => decide (to_time_t t > now))

/-- The function `Validate::nbf`, with the comparison `value < now`. -/
def Validate.nbf (now : Int) : Validator :=
  fun claims => validTimeClaim claims "nbf".toList (fun t => decide (to_time_t t < now))

/-- The function `Validate::iat`, with the comparison `value < now`. -/
def Validate.iat (now : Int) : Validator :=
  fun claims => validTimeClaim claims "iat".toList (fun t => decide (to_time_t t < now))

/-- The function `Validate::iss`. -/
def Validate.iss (issuer : Str) : Validator := stringValidator "iss".toList issuer

/-- The function `Validate::aud`. -/
def Validate.aud (audience : Str) : Validator := stringValidator "aud".toList audience

/-- The function `Validate::sub`. -/
def Validate.sub (subject : Str) : Validator := stringValidator "sub".toList subject

/-- The text that is left of a number once a sign in front of it is taken off. -/
def dropSign : Str → Str
  | [] => []
  | c :: r => if c = '-' ∨ c = '+' then r else c :: r

/-- The well-formed numeric claim value of the specification, as a predicate of
its own that does not go through `stoull`: the whole value is a number, that is
white space (possibly none), an optional sign and then one or more decimal
digits, with no character after them. A value that is not numeric is malformed:
it has no number at its start (the empty value for one), or it has characters
after the number. -/
def isNumeric (value : Str) : Bool :=
  let body := dropSign (value.dropWhile isspace)
  !body.isEmpty && body.all Char.isDigit

/-! ## The token entity -/

/-- The class `JWT`: the members `m_alg`, `m_header` and `m_claims`. -/
structure JWT where
  m_alg : Algorithm
  m_header : Pairs
  m_claims : Pairs
  deriving DecidableEq, Repr

/-- The outcome of a flow that runs validators: what it returns or raises, and
the record of the validators it invoked, by position in the list of the caller
and in order of invocation. -/
structure Run (α : Type) where
  result : Except Error α
  invoked : List Nat

/-- The loop `for (const auto& validator : validators) if (!validator(claims)) ...`
of the verifying constructor and of `JWT::verify`; the head of the list has
position `i`. Returns whether the loop ran to its end, no validator having
rejected, and the positions of the validators invoked. -/
def validatorLoop (claims : Pairs) : List Validator → Nat → Bool × List Nat
  | [], _ => (true, [])
  | validator :: rest, i =>
    if !validator claims then (false, [i])
    else
      let r := validatorLoop claims rest (i + 1)
      (r.1, i :: r.2)

/-- The constructor `JWT::JWT(Algorithm alg, Pairs claims, Pairs header)`. -/
def JWT.construct (alg : Algorithm) (claims header : Pairs) : JWT where
  m_alg := alg
  m_header := (header.assign "typ".toList "JWT".toList).assign "alg".toList (algToString alg)
  m_claims := claims

/-- The constructor `JWT::JWT(const std::string& token, Key key, Validators&& validators)`. -/
def JWT.constructVerified (X : Collab) (token : Str) (key : Key) (validators : List Validator) : Run JWT :=
  match split token with
  | Except.error e => ⟨Except.error e, []⟩
  | Except.ok (p0, p1, p2) =>
    match key.verify (p0 ++ ['.'] ++ p1) p2 with
    | Except.error e => ⟨Except.error e, []⟩
    | Except.ok false => ⟨Except.error Error.signatureInvalid, []⟩
    | Except.ok true =>
      match X.decodeSegment p0 with
      | Except.error e => ⟨Except.error e, []⟩
      | Except.ok header =>
        match X.decodeSegment p1 with
        | Except.error e => ⟨Except.error e, []⟩
        | Except.ok claims =>
          let r := validatorLoop claims validators 0
          if r.1 then ⟨Except.ok ⟨key.alg, header, claims⟩, r.2⟩
          else ⟨Except.error Error.validationFailed, r.2⟩

/-- The static function `JWT::parse`. Both reads `header["alg"]` go through
`Pairs.index`, so a header without "alg" has an empty one afterwards. -/
def JWT.parse (X : Collab) (token : Str) : Except Error JWT :=
  match split token with
  | Except.error e => Except.error e
  | Except.ok (p0, p1, _) =>
    match X.decodeSegment p0 with
    | Except.error e => Except.error e
    | Except.ok header =>
      match X.decodeSegment p1 with
      | Except.error e => Except.error e
      | Except.ok claims =>
        let r := header.index "alg".toList
        if r.1 ≠ [] then
          let r2 := r.2.index "alg".toList
          match stringToAlg r2.1 with
          | Except.error e => Except.error e
          | Except.ok alg => Except.ok (JWT.construct alg claims r2.2)
        else Except.ok (JWT.construct Algorithm.none claims r.2)

/-- The static function `JWT::verify`. -/
def JWT.verify (X : Collab) (token : Str) (key : Key) (validators : List Validator) : Run Bool :=
  match split token with
  | Except.error e => ⟨Except.error e, []⟩
  | Except.ok (p0, p1, p2) =>
    match key.verify (p0 ++ ['.'] ++ p1) p2 with
    | Except.error e => ⟨Except.error e, []⟩
    | Except.ok false => ⟨Except.ok false, []⟩
    | Except.ok true =>
      match X.decodeSegment p1 with
      | Except.error e => ⟨Except.error e, []⟩
      | Except.ok claims =>
        let r := validatorLoop claims validators 0
        ⟨Except.ok r.1, r.2⟩

/-- The method `JWT::claim`. -/
def JWT.claim (self : JWT) (name : Str) : Str :=
  match self.m_claims.find name with
  | none => []
  | some value => value

/-- The method `JWT::token`. -/
def JWT.token (X : Collab) (self : JWT) (keyData : Str) : Except Error Str :=
  let data := X.encodeSegment self.m_header ++ ['.'] ++ X.encodeSegment self.m_claims
  match Key.construct X self.m_alg keyData with
  | Except.error e => Except.error e
  | Except.ok key =>
    match key.sign data with
    | Except.error e => Except.error e
    | Except.ok signature =>
      if signature = [] then Except.ok data else Except.ok (data ++ ['.'] ++ signature)

/-! ## A sample collaborator

A small, executable stand-in for the absent files, used to instantiate the
theorems at concrete inputs: a two-digits-per-character text encoding, a
`name=value;` rendering of maps, and a keyed checksum for every key class. -/

namespace Sample

/-- Two hexadecimal digits per character. -/
def encode : Str → Str
  | [] => []
  | c :: r => Nat.digitChar (c.toNat / 16 % 16) :: Nat.digitChar (c.toNat % 16) :: encode r

/-- The value of a hexadecimal digit. -/
def hexVal (c : Char) : Option Nat :=
  if c.isDigit then some (c.toNat - '0'.toNat)
  else if 'a'.toNat ≤ c.toNat ∧ c.toNat ≤ 'f'.toNat then some (c.toNat - 'a'.toNat + 10)
  else none

/-- Read the characters back from their two digits. -/
def decode : Str → Except Error Str
  | [] => Except.ok []
  | [_] => Except.error (Error.collaborator "odd length".toList)
  | a :: b :: r =>
    match hexVal a, hexVal b, decode r with
    | some x, some y, Except.ok s => Except.ok (Char.ofNat (16 * x + y) :: s)
    | _, _, _ => Except.error (Error.collaborator "bad digit".toList)

/-- Render a map as `name=value;` items. -/
def render : List (Str × Str) → Str
  | [] => []
  | (k, v) :: m => k ++ ['='] ++ v ++ [';'] ++ render m

/-- Read `name=value;` items: `cur` is the text of the item being read, `key`
its name once the `=` has been seen. -/
def parseItems : Str → Str → Option Str → Except Error (List (Str × Str))
  | [], [], none => Except.ok []
  | [], _, _ => Except.error (Error.collaborator "unfinished item".toList)
  | c :: r, cur, key =>
    if c = '=' then
      match key with
      | none => parseItems r [] (some cur)
      | some _ => Except.error (Error.collaborator "second = in an item".toList)
    else if c = ';' then
      match key with
      | none => Except.error (Error.collaborator "item without =".toList)
      | some k =>
        match parseItems r [] none with
        | Except.error e => Except.error e
        | Except.ok m => Except.ok ((k, cur) :: m)
    else parseItems r (cur ++ [c]) key

/-- A keyed checksum: the encoded key material followed by the encoded data. -/
def mac (keyData : Str) : KeyImpl where
  sign := fun data => Except.ok (encode keyData ++ encode data)
  verify := fun data signature => Except.ok (decide (signature = encode keyData ++ encode data))

/-- The sample collaborator. -/
def collab : Collab where
  b64encode := encode
  b64decode := decode
  toJSON := fun m => render m.entries
  fromJSON := fun text =>
    match parseItems text [] none with
    | Except.error e => Except.error e
    | Except.ok m => Except.ok ⟨m⟩
  hmac := fun _ keyData => Except.ok (mac keyData)
  pem := fun _ keyData =>
    if keyData = [] then Except.error (Error.collaborator "no key".toList)
    else Except.ok (mac keyData)

/-- A claims map with a subject and an expiry. -/
def claims : Pairs := ⟨[("sub".toList, "123".toList), ("exp".toList, "1700000000".toList)]⟩

/-- An `HS256` key over the secret "secret". -/
def key : Key := ⟨Algorithm.HS256, mac "secret".toList⟩

/-- The header segment of the sample token. -/
def part1 : Str :=
  collab.encodeSegment (JWT.construct Algorithm.HS256 claims ⟨[]⟩).m_header

/-- The claims segment of the sample token. -/
def part2 : Str := collab.encodeSegment claims

/-- The signature segment of the sample token. -/
def part3 : Str := encode "secret".toList ++ encode (part1 ++ ['.'] ++ part2)

/-- The sample token. -/
def token : Str := part1 ++ ['.'] ++ part2 ++ ['.'] ++ part3

/-- A token whose header names an algorithm that does not exist. -/
def bogusToken : Str :=
  collab.encodeSegment ⟨[("alg".toList, "bogus".toList)]⟩ ++ ['.'] ++ part2

/-- A header with a type of its own, a key id and the algorithm `HS256`. -/
def wireHeader : Pairs :=
  ⟨[("typ".toList, "JWS".toList), ("kid".toList, "1".toList), ("alg".toList, "HS256".toList)]⟩

/-- A token with the header `wireHeader` and no signature. -/
def wireToken : Str := collab.encodeSegment wireHeader ++ ['.'] ++ part2

/-- An `HS512` key over the secret "secret". -/
def key512 : Key := ⟨Algorithm.HS512, mac "secret".toList⟩

end Sample

/-! # Theorems -/

set_option maxRecDepth 100000

/-! ## `find_first_of`, `substr` and `split` -/

theorem findFrom_eq_none (c : Char) (s : Str) (i : Nat) :
    findFrom c s i = none ↔ c ∉ s := by
  induction s generalizing i with
  | nil => simp [findFrom]
  | cons x xs ih =>
    by_cases hx : x = c
    · simp [findFrom, hx]
    · have hx2 : ¬ c = x := fun h => hx h.symm
      simp [findFrom, hx, hx2, ih]

theorem findFrom_append (c : Char) (h r : Str) (i : Nat) (hc : c ∉ h) :
    findFrom c (h ++ c :: r) i = some (i + h.length) := by
  induction h generalizing i with
  | nil => simp [findFrom]
  | cons x xs ih =>
    have hx : ¬ x = c := fun e => hc (by simp [e])
    have hxs : c ∉ xs := fun e => hc (by simp [e])
    simp [findFrom, hx, ih (i + 1) hxs]
    omega

/-- The index found lies in the scanned range: this is why the `size_t`
subtractions of `split` do not wrap and why its `substr` calls are in range. -/
theorem findFrom_bounds (c : Char) (s : Str) (i p : Nat) (hp : findFrom c s i = some p) :
    i ≤ p ∧ p < i + s.length := by
  induction s generalizing i with
  | nil => simp [findFrom] at hp
  | cons x xs ih =>
    by_cases hx : x = c
    · simp [findFrom, hx] at hp
      subst hp
      simp
    · simp only [findFrom, hx, if_false] at hp
      have := ih (i + 1) hp
      simp only [List.length_cons]
      omega

/-- A string that contains `c` splits at the first occurrence of `c`. -/
theorem exists_first_occurrence (c : Char) (t : Str) (hc : c ∈ t) :
    ∃ h r, t = h ++ c :: r ∧ c ∉ h := by
  induction t with
  | nil => simp at hc
  | cons x xs ih =>
    by_cases hx : x = c
    · exact ⟨[], xs, by simp [hx], by simp⟩
    · have hxs : c ∈ xs := by
        rcases List.mem_cons.mp hc with e | e
        · exact absurd e.symm hx
        · exact e
      obtain ⟨h, r, ht, hh⟩ := ih hxs
      refine ⟨x :: h, r, by simp [ht], ?_⟩
      intro hmem
      rcases List.mem_cons.mp hmem with e | e
      · exact hx e.symm
      · exact hh e

/-- One separator: the third part is empty. -/
theorem split_two (h c : Str) (hh : '.' ∉ h) (hc : '.' ∉ c) :
    split (h ++ '.' :: c) = Except.ok (h, c, []) := by
  have h1 : find_first_of (h ++ '.' :: c) '.' 0 = some h.length := by
    simp [find_first_of, findFrom_append _ _ _ _ hh]
  have h2 : find_first_of (h ++ '.' :: c) '.' (h.length + 1) = none := by
    have hd : List.drop (h.length + 1) (h ++ '.' :: c) = c := by
      rw [List.drop_append]; rfl
    simp only [find_first_of, hd]
    exact (findFrom_eq_none _ _ _).mpr hc
  have hd : List.drop (h.length + 1) (h ++ '.' :: c) = c := by
    rw [List.drop_append]; rfl
  simp only [split, h1, h2, substr]
  simp [hd, bind, Except.bind, pure, Except.pure]

/-- Two or more separators: everything after the second one is the third part. -/
theorem split_three (h c s : Str) (hh : '.' ∉ h) (hc : '.' ∉ c) :
    split (h ++ '.' :: (c ++ '.' :: s)) = Except.ok (h, c, s) := by
  have hd : List.drop (h.length + 1) (h ++ '.' :: (c ++ '.' :: s)) = c ++ '.' :: s := by
    rw [List.drop_append]; rfl
  have hd2 : List.drop (h.length + 1 + c.length + 1) (h ++ '.' :: (c ++ '.' :: s)) = s := by
    have e : h.length + 1 + c.length + 1 = h.length + (1 + (c.length + 1)) := by omega
    rw [e, List.drop_append]
    have e2 : 1 + (c.length + 1) = (c.length + 1) + 1 := by omega
    rw [e2, List.drop_succ_cons, List.drop_append]; rfl
  have h1 : find_first_of (h ++ '.' :: (c ++ '.' :: s)) '.' 0 = some h.length := by
    simp [find_first_of, findFrom_append _ _ _ _ hh]
  have h2 : find_first_of (h ++ '.' :: (c ++ '.' :: s)) '.' (h.length + 1)
      = some (h.length + 1 + c.length) := by
    simp only [find_first_of, hd]
    exact findFrom_append _ _ _ _ hc
  have e3 : h.length + 1 + c.length - h.length - 1 = c.length := by omega
  have e4 : ¬ (h.length + 1 + c.length + 1 > (h ++ '.' :: (c ++ '.' :: s)).length) := by
    simp only [List.length_append, List.length_cons]; omega
  have e5 : (h ++ '.' :: (c ++ '.' :: s)).length - (h.length + 1 + c.length) - 1 = s.length := by
    simp only [List.length_append, List.length_cons]; omega
  simp only [split, h1, h2, substr, hd, hd2, e3, e4, e5, if_false]
  simp [bind, Except.bind, pure, Except.pure]

/-- Every string with a separator has one of the two shapes of `split_two` and
`split_three`. -/
theorem dot_shapes (t : Str) (ht : '.' ∈ t) :
    ∃ h c, '.' ∉ h ∧ '.' ∉ c ∧ (t = h ++ '.' :: c ∨ ∃ s, t = h ++ '.' :: (c ++ '.' :: s)) := by
  obtain ⟨h, r, hr, hh⟩ := exists_first_occurrence '.' t ht
  by_cases hd : '.' ∈ r
  · obtain ⟨c, s, hs, hc⟩ := exists_first_occurrence '.' r hd
    exact ⟨h, c, hh, hc, Or.inr ⟨s, by rw [hr, hs]⟩⟩
  · exact ⟨h, r, hh, hd, Or.inl hr⟩

theorem split_no_dot (t : Str) (ht : '.' ∉ t) : split t = Except.error Error.malformedToken := by
  have h1 : find_first_of t '.' 0 = none := by
    simp only [find_first_of, List.drop_zero]
    exact (findFrom_eq_none _ _ _).mpr ht
  simp [split, h1]

theorem split_dot (t : Str) (ht : '.' ∈ t) : ∃ p1 p2 p3, split t = Except.ok (p1, p2, p3) := by
  obtain ⟨h, c, hh, hc, e | ⟨s, e⟩⟩ := dot_shapes t ht
  · exact ⟨h, c, [], by rw [e]; exact split_two h c hh hc⟩
  · exact ⟨h, c, s, by rw [e]; exact split_three h c s hh hc⟩

/-- C6: `split` raises the malformed-token error exactly when the token has no
separator character, and it returns three parts, raising nothing, for every
token with at least one separator. -/
theorem split_malformed_iff (token : Str) :
    (split token = Except.error Error.malformedToken ↔ '.' ∉ token) ∧
    ((∃ e, split token = Except.error e) ↔ '.' ∉ token) ∧
    ('.' ∈ token ↔ ∃ p1 p2 p3, split token = Except.ok (p1, p2, p3)) := by
  by_cases ht : '.' ∈ token
  · obtain ⟨p1, p2, p3, hp⟩ := split_dot token ht
    refine ⟨?_, ?_, ?_⟩
    · simp [hp, ht]
    · simp [hp, ht]
    · simp only [ht, true_iff]
      exact ⟨p1, p2, p3, hp⟩
  · have hs := split_no_dot token ht
    refine ⟨?_, ?_, ?_⟩
    · simp [hs, ht]
    · simp [hs, ht]
    · simp [hs, ht]

/-- The token `h.c` in the notation of string concatenation. -/
theorem split_two_append (h c : Str) (hh : '.' ∉ h) (hc : '.' ∉ c) :
    split (h ++ ['.'] ++ c) = Except.ok (h, c, []) := by
  have e : h ++ ['.'] ++ c = h ++ '.' :: c := by simp
  rw [e]
  exact split_two h c hh hc

/-- The token `h.c.s` in the notation of string concatenation. -/
theorem split_three_append (h c s : Str) (hh : '.' ∉ h) (hc : '.' ∉ c) :
    split (h ++ ['.'] ++ c ++ ['.'] ++ s) = Except.ok (h, c, s) := by
  have e : h ++ ['.'] ++ c ++ ['.'] ++ s = h ++ '.' :: (c ++ '.' :: s) := by simp
  rw [e]
  exact split_three h c s hh hc

/-- C7: for `h` and `c` without a separator and any `s`, `split (h.c)` is
`(h, c, "")` and `split (h.c.s)` is `(h, c, s)`, also when `s` has separators of
its own. -/
theorem split_parts (h c s : Str) (hh : '.' ∉ h) (hc : '.' ∉ c) :
    split (h ++ ['.'] ++ c) = Except.ok (h, c, []) ∧
    split (h ++ ['.'] ++ c ++ ['.'] ++ s) = Except.ok (h, c, s) :=
  ⟨split_two_append h c hh hc, split_three_append h c s hh hc⟩

/-- Witness of C7: a four-segment token. -/
theorem split_parts_witness :
    split ("ab".toList ++ ['.'] ++ "cd".toList) = Except.ok ("ab".toList, "cd".toList, []) ∧
    split ("ab".toList ++ ['.'] ++ "cd".toList ++ ['.'] ++ "e.f".toList)
      = Except.ok ("ab".toList, "cd".toList, "e.f".toList) :=
  split_parts "ab".toList "cd".toList "e.f".toList (by decide) (by decide)

/-! ## Algorithm registry -/

theorem stringToAlg_algToString (a : Algorithm) : stringToAlg (algToString a) = Except.ok a := by
  cases a <;> rfl

theorem stringToAlg_error (s : Str) (h : s ∉ canonicalNames) :
    stringToAlg s = Except.error (Error.invalidAlgorithm s) := by
  simp only [canonicalNames, List.mem_cons, List.mem_singleton, not_or, List.not_mem_nil,
    or_false] at h
  obtain ⟨h0, h1, h2, h3, h4, h5, h6, h7, h8, h9⟩ := h
  simp only [stringToAlg, h0, h1, h2, h3, h4, h5, h6, h7, h8, h9, if_false]

theorem stringToAlg_ok (s : Str) (a : Algorithm) (h : stringToAlg s = Except.ok a) :
    algToString a = s := by
  by_cases hs : s ∈ canonicalNames
  · simp only [canonicalNames, List.mem_cons, List.mem_singleton, List.not_mem_nil,
      or_false] at hs
    rcases hs with e | e | e | e | e | e | e | e | e | e <;> subst e <;>
      (injection h with h; subst h; rfl)
  · rw [stringToAlg_error s hs] at h
    exact absurd h (by simp)

/-- C8: `stringToAlg` is the exact-case inverse of `algToString`: it maps the
name of every algorithm back to the algorithm, it succeeds exactly on the ten
canonical names, on success `algToString` gives the input back, and on every
other string it raises the invalid-algorithm error. -/
theorem stringToAlg_inverse :
    (∀ a : Algorithm, stringToAlg (algToString a) = Except.ok a) ∧
    (∀ s : Str, (∃ a, stringToAlg s = Except.ok a) ↔ s ∈ canonicalNames) ∧
    (∀ (s : Str) (a : Algorithm), stringToAlg s = Except.ok a → algToString a = s) ∧
    (∀ s : Str, s ∉ canonicalNames → stringToAlg s = Except.error (Error.invalidAlgorithm s)) := by
  refine ⟨stringToAlg_algToString, ?_, stringToAlg_ok, stringToAlg_error⟩
  intro s
  constructor
  · rintro ⟨a, ha⟩
    by_contra hs
    rw [stringToAlg_error s hs] at ha
    exact absurd ha (by simp)
  · intro hs
    simp only [canonicalNames, List.mem_cons, List.mem_singleton, List.not_mem_nil,
      or_false] at hs
    rcases hs with h | h | h | h | h | h | h | h | h | h <;> subst h
    · exact ⟨Algorithm.none, rfl⟩
    · exact ⟨Algorithm.HS256, rfl⟩
    · exact ⟨Algorithm.HS384, rfl⟩
    · exact ⟨Algorithm.HS512, rfl⟩
    · exact ⟨Algorithm.RS256, rfl⟩
    · exact ⟨Algorithm.RS384, rfl⟩
    · exact ⟨Algorithm.RS512, rfl⟩
    · exact ⟨Algorithm.ES256, rfl⟩
    · exact ⟨Algorithm.ES384, rfl⟩
    · exact ⟨Algorithm.ES512, rfl⟩


/-! ## `std::stoull` on decimal representations -/

theorem digitChar_digit : ∀ k, k < 10 →
    (Nat.digitChar k).isDigit = true ∧ digitVal (Nat.digitChar k) = k := by
  decide

theorem decimalValue_snoc (ds : Str) (c : Char) :
    decimalValue (ds ++ [c]) = 10 * decimalValue ds + digitVal c := by
  simp [decimalValue, List.foldl_append]

/-- The digits that `Nat.toDigitsCore` puts in front of its accumulator. -/
theorem toDigitsCore_spec (fuel n : Nat) (ds : Str) (hf : n < fuel) :
    ∃ pre, Nat.toDigitsCore 10 fuel n ds = pre ++ ds ∧ pre ≠ [] ∧
      (∀ c ∈ pre, c.isDigit = true) ∧ decimalValue pre = n := by
  induction fuel generalizing n ds with
  | zero => omega
  | succ fuel ih =>
    have hd := digitChar_digit (n % 10) (Nat.mod_lt _ (by decide))
    by_cases h0 : n / 10 = 0
    · refine ⟨[Nat.digitChar (n % 10)], ?_, by simp, ?_, ?_⟩
      · simp [Nat.toDigitsCore, h0]
      · intro c hc
        rw [List.mem_singleton.mp hc]
        exact hd.1
      · have e := decimalValue_snoc [] (Nat.digitChar (n % 10))
        simp only [List.nil_append] at e
        rw [e, hd.2]
        simp [decimalValue]
        omega
    · have hlt : n / 10 < fuel := by omega
      obtain ⟨pre, hpre, _, hdig, hval⟩ := ih (n / 10) (Nat.digitChar (n % 10) :: ds) hlt
      refine ⟨pre ++ [Nat.digitChar (n % 10)], ?_, by simp, ?_, ?_⟩
      · simp [Nat.toDigitsCore, h0, hpre]
      · intro c hc
        rcases List.mem_append.mp hc with h | h
        · exact hdig c h
        · rw [List.mem_singleton.mp h]
          exact hd.1
      · rw [decimalValue_snoc, hval, hd.2]
        omega

/-- The decimal representation of `n` is a non-empty run of digits that writes `n`. -/
theorem toDigits_spec (n : Nat) :
    Nat.toDigits 10 n ≠ [] ∧ (∀ c ∈ Nat.toDigits 10 n, c.isDigit = true) ∧
      decimalValue (Nat.toDigits 10 n) = n := by
  obtain ⟨pre, hpre, hne, hdig, hval⟩ := toDigitsCore_spec (n + 1) n [] (by omega)
  simp only [List.append_nil] at hpre
  simp only [Nat.toDigits, hpre]
  exact ⟨hne, hdig, hval⟩

theorem isDigit_not_space (c : Char) (h : c.isDigit = true) :
    isspace c = false ∧ c ≠ '-' ∧ c ≠ '+' := by
  refine ⟨?_, ?_, ?_⟩
  · by_contra hs
    simp only [isspace, Bool.or_eq_true, decide_eq_true_eq, Bool.not_eq_false] at hs
    rcases hs with ((((e | e) | e) | e) | e) | e <;> (subst e; revert h; decide)
  · intro e; subst e; revert h; decide
  · intro e; subst e; revert h; decide

/-- On a non-empty run of digits `std::stoull` reads the whole text. -/
theorem stoull_digits (ds : Str) (hne : ds ≠ []) (hd : ∀ c ∈ ds, c.isDigit = true) :
    stoull ds =
      if decimalValue ds > ULLONG_MAX then Except.error LogicError.out_of_range
      else Except.ok (decimalValue ds, ds.length) := by
  obtain ⟨d, r, rfl⟩ := List.exists_cons_of_ne_nil hne
  obtain ⟨hs, hm, hp⟩ := isDigit_not_space d (hd d (by simp))
  have htw : List.takeWhile Char.isDigit (d :: r) = d :: r :=
    List.takeWhile_eq_self_iff.mpr hd
  have hws : List.takeWhile isspace (d :: r) = [] := by simp [List.takeWhile, hs]
  have hdw : List.dropWhile isspace (d :: r) = d :: r := by simp [List.dropWhile, hs]
  have hsg : stripSign (d :: r) = (false, 0, d :: r) := by simp [stripSign, hm, hp]
  simp only [stoull, hws, hdw, hsg, htw]
  simp

/-- What `validTime` does with the decimal representation of `n`. -/
theorem validTime_toDigits (n : Nat) (next : Nat → Bool) :
    validTime (Nat.toDigits 10 n) next = if n > ULLONG_MAX then false else next n := by
  obtain ⟨hne, hd, hv⟩ := toDigits_spec n
  simp only [validTime, stoull_digits _ hne hd, hv]
  by_cases h : n > ULLONG_MAX
  · simp [h]
  · simp [h]

theorem to_time_t_small (n : Nat) (h : n < 2 ^ 63) : to_time_t n = (n : Int) := by
  have h1 : n % 2 ^ 64 = n := Nat.mod_eq_of_lt (by omega)
  unfold to_time_t
  rw [h1, if_pos h]

/-! ## The time validators -/

/-- C9, as far as it fails: the decimal representations of `2 ^ 64`, which
`std::stoull` refuses, and of `2 ^ 63`, which becomes a negative `std::time_t`,
are rejected by `Validate::exp(0)` although both numbers are greater than 0. -/
theorem exp_rejects_large :
    ¬ (Validate.exp 0 ⟨[("exp".toList, Nat.toDigits 10 (2 ^ 64))]⟩ = true ↔
        (((2 ^ 64 : Nat) : Int) > 0)) ∧
    ¬ (Validate.exp 0 ⟨[("exp".toList, Nat.toDigits 10 (2 ^ 63))]⟩ = true ↔
        (((2 ^ 63 : Nat) : Int) > 0)) := by
  decide

/-- C9, amended: when the claims map holds under "exp" the decimal
representation of a number `n` below `2 ^ 63`, so that `n` is a `std::time_t`,
the validator `Validate::exp(now)` accepts the claims exactly when `n > now`. -/
theorem exp_accepts_iff (claims : Pairs) (n : Nat) (now : Int)
    (hfind : claims.find "exp".toList = some (Nat.toDigits 10 n)) (hn : n < 2 ^ 63) :
    Validate.exp now claims = true ↔ (n : Int) > now := by
  have hu : ¬ n > ULLONG_MAX := by simp only [ULLONG_MAX]; omega
  simp only [Validate.exp, validTimeClaim, validClaim, hfind, validTime_toDigits, hu, if_false,
    to_time_t_small n hn, decide_eq_true_eq]

/-- Witness of C9 amended: "exp" is 1700000000 and now is 1600000000. -/
theorem exp_accepts_iff_witness :
    Validate.exp 1600000000 ⟨[("exp".toList, Nat.toDigits 10 1700000000)]⟩ = true ↔
      ((1700000000 : Nat) : Int) > 1600000000 :=
  exp_accepts_iff ⟨[("exp".toList, Nat.toDigits 10 1700000000)]⟩ 1700000000 1600000000
    (by decide) (by decide)

/-- C10, as far as it fails: the decimal representation of `2 ^ 63` becomes a
negative `std::time_t`, so `Validate::nbf(0)` and `Validate::iat(0)` accept it
although `2 ^ 63 < 0` is false. -/
theorem nbf_iat_accept_wrapped :
    ¬ (Validate.nbf 0 ⟨[("nbf".toList, Nat.toDigits 10 (2 ^ 63))]⟩ = true ↔
        (((2 ^ 63 : Nat) : Int) < 0)) ∧
    ¬ (Validate.iat 0 ⟨[("iat".toList, Nat.toDigits 10 (2 ^ 63))]⟩ = true ↔
        (((2 ^ 63 : Nat) : Int) < 0)) := by
  decide

/-- C10, amended: when the claims map holds under "nbf" (respectively "iat") the
decimal representation of a number `n` that is not in the range from `2 ^ 63`
to `2 ^ 64 - 1`, and `now` is a `std::time_t` (so `now < 2 ^ 63`), the validator
`Validate::nbf(now)` (respectively `Validate::iat(now)`) accepts the claims
exactly when `n < now`. -/
theorem nbf_iat_accepts_iff (claims : Pairs) (n : Nat) (now : Int)
    (hn : n < 2 ^ 63 ∨ 2 ^ 64 ≤ n) (hnow : now < 2 ^ 63) :
    (claims.find "nbf".toList = some (Nat.toDigits 10 n) →
      (Validate.nbf now claims = true ↔ (n : Int) < now)) ∧
    (claims.find "iat".toList = some (Nat.toDigits 10 n) →
      (Validate.iat now claims = true ↔ (n : Int) < now)) := by
  rcases hn with hn | hn
  · have hu : ¬ n > ULLONG_MAX := by simp only [ULLONG_MAX]; omega
    constructor <;> intro hfind <;>
      simp only [Validate.nbf, Validate.iat, validTimeClaim, validClaim, hfind,
        validTime_toDigits, hu, if_false, to_time_t_small n hn, decide_eq_true_eq]
  · have hu : n > ULLONG_MAX := by simp only [ULLONG_MAX]; omega
    have hlt : ¬ (n : Int) < now := by omega
    constructor <;> intro hfind <;>
      simp only [Validate.nbf, Validate.iat, validTimeClaim, validClaim, hfind,
        validTime_toDigits, hu, if_true, hlt] <;> simp

/-- Witness of C10 amended: "nbf" and "iat" are 1600000000 and now is 1700000000. -/
theorem nbf_iat_accepts_iff_witness :
    (Validate.nbf 1700000000
        ⟨[("nbf".toList, Nat.toDigits 10 1600000000), ("iat".toList, Nat.toDigits 10 1600000000)]⟩
        = true ↔ ((1600000000 : Nat) : Int) < 1700000000) ∧
    (Validate.iat 1700000000
        ⟨[("nbf".toList, Nat.toDigits 10 1600000000), ("iat".toList, Nat.toDigits 10 1600000000)]⟩
        = true ↔ ((1600000000 : Nat) : Int) < 1700000000) :=
  have h := nbf_iat_accepts_iff
    ⟨[("nbf".toList, Nat.toDigits 10 1600000000), ("iat".toList, Nat.toDigits 10 1600000000)]⟩
    1600000000 1700000000 (Or.inl (by decide)) (by decide)
  ⟨h.1 (by decide), h.2 (by decide)⟩

/-! ## The validator loop -/

theorem validatorLoop_fst (claims : Pairs) (vs : List Validator) (i : Nat) :
    (validatorLoop claims vs i).1 = true ↔ ∀ v ∈ vs, v claims = true := by
  induction vs generalizing i with
  | nil => simp [validatorLoop]
  | cons v vs ih =>
    by_cases hv : v claims = true
    · simp [validatorLoop, hv, ih]
    · simp [validatorLoop, hv]

theorem validatorLoop_reject (claims : Pairs) (pre post : List Validator) (v : Validator)
    (i : Nat) (hpre : ∀ u ∈ pre, u claims = true) (hv : v claims = false) :
    validatorLoop claims (pre ++ v :: post) i = (false, List.range' i (pre.length + 1)) := by
  induction pre generalizing i with
  | nil => simp [validatorLoop, hv]
  | cons u us ih =>
    have hu : u claims = true := hpre u (by simp)
    have hus : ∀ w ∈ us, w claims = true := fun w hw => hpre w (by simp [hw])
    simp [validatorLoop, hu, ih (i + 1) hus, List.range'_succ]

theorem validatorLoop_range (claims : Pairs) (vs : List Validator) (i : Nat) :
    ∃ n, n ≤ vs.length ∧ (validatorLoop claims vs i).2 = List.range' i n := by
  induction vs generalizing i with
  | nil => exact ⟨0, by simp, by simp [validatorLoop]⟩
  | cons v vs ih =>
    by_cases hv : v claims = true
    · obtain ⟨n, hn, he⟩ := ih (i + 1)
      exact ⟨n + 1, by simp [hn], by simp [validatorLoop, hv, he, List.range'_succ]⟩
    · exact ⟨1, by simp, by simp [validatorLoop, hv]⟩

/-! ## `JWT::verify` and the verifying constructor -/

/-- C2: for a token with a separator, so that `split` returns the parts `p1`,
`p2`, `p3`, and whose claims segment `p2` decodes to `claims`, `JWT::verify`
returns true exactly when `key.verify (p1 + "." + p2, p3)` is true and every
validator accepts `claims`. The validators invoked are an initial stretch of
the list of the caller, in its order; when a validator rejects after all the
ones before it accepted, the stretch ends with it (none after it is run) and
the result is false. -/
theorem verify_true_iff (X : Collab) (token : Str) (key : Key) (validators : List Validator)
    (p1 p2 p3 : Str) (claims : Pairs)
    (hsplit : split token = Except.ok (p1, p2, p3))
    (hclaims : X.decodeSegment p2 = Except.ok claims) :
    ((JWT.verify X token key validators).result = Except.ok true ↔
      key.verify (p1 ++ ['.'] ++ p2) p3 = Except.ok true ∧
        ∀ v ∈ validators, v claims = true) ∧
    (∃ n, n ≤ validators.length ∧
      (JWT.verify X token key validators).invoked = List.range n) ∧
    (∀ pre v post, validators = pre ++ v :: post → (∀ u ∈ pre, u claims = true) →
      v claims = false → key.verify (p1 ++ ['.'] ++ p2) p3 = Except.ok true →
      (JWT.verify X token key validators).invoked = List.range (pre.length + 1) ∧
      (JWT.verify X token key validators).result = Except.ok false) := by
  refine ⟨?_, ?_, ?_⟩
  · cases hk : key.verify (p1 ++ ['.'] ++ p2) p3 with
    | error e => simp only [JWT.verify, hsplit, hk]; simp
    | ok b =>
      cases b with
      | false => simp only [JWT.verify, hsplit, hk]; simp
      | true =>
        simp only [JWT.verify, hsplit, hk, hclaims, true_and]
        rw [← validatorLoop_fst claims validators 0]
        simp
  · cases hk : key.verify (p1 ++ ['.'] ++ p2) p3 with
    | error e => exact ⟨0, by simp, by simp only [JWT.verify, hsplit, hk]; simp⟩
    | ok b =>
      cases b with
      | false => exact ⟨0, by simp, by simp only [JWT.verify, hsplit, hk]; simp⟩
      | true =>
        obtain ⟨n, hn, he⟩ := validatorLoop_range claims validators 0
        refine ⟨n, hn, ?_⟩
        simp only [JWT.verify, hsplit, hk, hclaims, he, List.range_eq_range']
  · intro pre v post hvs hpre hv hk
    subst hvs
    simp only [JWT.verify, hsplit, hk, hclaims, validatorLoop_reject claims pre post v 0 hpre hv,
      List.range_eq_range', and_self]

/-- Witness of C2: the sample token under its key, with a subject validator
that accepts and an expiry validator that rejects. -/
theorem verify_true_iff_witness :
    ((JWT.verify Sample.collab Sample.token Sample.key
        [Validate.sub "123".toList, Validate.exp 1800000000, Validate.sub "9".toList]).result
        = Except.ok true ↔
      Sample.key.verify (Sample.part1 ++ ['.'] ++ Sample.part2) Sample.part3 = Except.ok true ∧
        ∀ v ∈ [Validate.sub "123".toList, Validate.exp 1800000000, Validate.sub "9".toList],
          v Sample.claims = true) ∧
    (JWT.verify Sample.collab Sample.token Sample.key
        [Validate.sub "123".toList, Validate.exp 1800000000, Validate.sub "9".toList]).invoked
        = List.range 2 :=
  have h := verify_true_iff Sample.collab Sample.token Sample.key
    [Validate.sub "123".toList, Validate.exp 1800000000, Validate.sub "9".toList]
    Sample.part1 Sample.part2 Sample.part3 Sample.claims (by decide) (by decide)
  ⟨h.1, (h.2.2 [Validate.sub "123".toList] (Validate.exp 1800000000) [Validate.sub "9".toList]
    rfl (by decide) (by decide) (by decide)).1⟩

/-- C3: for a token with a separator, so that `split` returns `p1`, `p2`, `p3`:
when `key.verify (p1 + "." + p2, p3)` is false, the verifying constructor raises
the signature-invalid error, whatever the decoders would do and without
invoking a validator; when the signature is accepted and both segments decode,
it raises the validation-failed error exactly when some validator rejects the
decoded claims, and otherwise produces the entity; and whenever it produces an
entity, the signature check and every validator passed. -/
theorem constructVerified_outcomes (X : Collab) (token : Str) (key : Key)
    (validators : List Validator) (p1 p2 p3 : Str)
    (hsplit : split token = Except.ok (p1, p2, p3)) :
    (key.verify (p1 ++ ['.'] ++ p2) p3 = Except.ok false →
      (JWT.constructVerified X token key validators).result
          = Except.error Error.signatureInvalid ∧
        (JWT.constructVerified X token key validators).invoked = []) ∧
    (∀ header claims, key.verify (p1 ++ ['.'] ++ p2) p3 = Except.ok true →
      X.decodeSegment p1 = Except.ok header → X.decodeSegment p2 = Except.ok claims →
      ((JWT.constructVerified X token key validators).result
          = Except.error Error.validationFailed ↔ ∃ v ∈ validators, v claims = false) ∧
      ((∀ v ∈ validators, v claims = true) →
        (JWT.constructVerified X token key validators).result
          = Except.ok ⟨key.alg, header, claims⟩)) ∧
    (∀ entity, (JWT.constructVerified X token key validators).result = Except.ok entity →
      key.verify (p1 ++ ['.'] ++ p2) p3 = Except.ok true ∧
        ∃ claims, X.decodeSegment p2 = Except.ok claims ∧
          ∀ v ∈ validators, v claims = true) := by
  refine ⟨?_, ?_, ?_⟩
  · intro hk
    simp only [JWT.constructVerified, hsplit, hk, and_self]
  · intro header claims hk hh hc
    by_cases hall : (validatorLoop claims validators 0).1 = true
    · have hall2 := (validatorLoop_fst claims validators 0).mp hall
      constructor
      · simp only [JWT.constructVerified, hsplit, hk, hh, hc, hall, if_true]
        constructor
        · intro h; exact absurd h (by simp)
        · rintro ⟨v, hv, hr⟩
          rw [hall2 v hv] at hr
          exact absurd hr (by simp)
      · intro _
        simp only [JWT.constructVerified, hsplit, hk, hh, hc, hall, if_true]
    · have hne : ¬ ∀ v ∈ validators, v claims = true :=
        fun h => hall ((validatorLoop_fst claims validators 0).mpr h)
      have hfalse : (validatorLoop claims validators 0).1 = false := by simpa using hall
      have hex : ∃ v ∈ validators, v claims = false := by
        by_contra hcon
        apply hne
        intro v hv
        by_contra hv2
        exact hcon ⟨v, hv, by simpa using hv2⟩
      constructor
      · refine ⟨fun _ => hex, fun _ => ?_⟩
        simp only [JWT.constructVerified, hsplit, hk, hh, hc, hfalse]
        simp
      · intro h
        exact absurd h hne
  · intro entity he
    cases hk : key.verify (p1 ++ ['.'] ++ p2) p3 with
    | error e => simp only [JWT.constructVerified, hsplit, hk] at he; exact absurd he (by simp)
    | ok b =>
      cases b with
      | false => simp only [JWT.constructVerified, hsplit, hk] at he; exact absurd he (by simp)
      | true =>
        refine ⟨rfl, ?_⟩
        cases hh : X.decodeSegment p1 with
        | error e =>
          simp only [JWT.constructVerified, hsplit, hk, hh] at he
          exact absurd he (by simp)
        | ok header =>
          cases hc : X.decodeSegment p2 with
          | error e =>
            simp only [JWT.constructVerified, hsplit, hk, hh, hc] at he
            exact absurd he (by simp)
          | ok claims =>
            refine ⟨claims, rfl, ?_⟩
            by_cases hall : (validatorLoop claims validators 0).1 = true
            · exact (validatorLoop_fst claims validators 0).mp hall
            · simp only [JWT.constructVerified, hsplit, hk, hh, hc, hall] at he
              exact absurd he (by simp)

/-- Witness of C3: a token whose segments do not decode and whose signature the
sample key rejects is refused with the signature-invalid error, not with the
error of the decoder, and no validator is invoked. -/
theorem constructVerified_outcomes_witness :
    Sample.collab.decodeSegment "zz".toList
      = Except.error (Error.collaborator "bad digit".toList) ∧
    (JWT.constructVerified Sample.collab "zz.yy.00".toList Sample.key
        [Validate.sub "123".toList]).result = Except.error Error.signatureInvalid ∧
    (JWT.constructVerified Sample.collab "zz.yy.00".toList Sample.key
        [Validate.sub "123".toList]).invoked = [] :=
  ⟨by decide,
   (constructVerified_outcomes Sample.collab "zz.yy.00".toList Sample.key
    [Validate.sub "123".toList] "zz".toList "yy".toList "00".toList
    (by decide)).1 (by decide)⟩

/-- C4, as far as it fails: on a token without a separator `JWT::verify` does
not return false, it raises the malformed-token error of `split`. -/
theorem verify_raises_malformed :
    (JWT.verify Sample.collab "abc".toList ⟨Algorithm.none, NoneKey⟩ []).result
      = Except.error Error.malformedToken := by
  decide

/-- C4, amended: `JWT::verify` raises the malformed-token error on a token
without a separator, and it passes on an error raised by `key.verify` or, after
an accepted signature, by the decoding of the claims segment. In every other
case it raises nothing: it returns false on a signature mismatch, and after an
accepted signature it returns whether all validators accept the decoded claims,
so false on a validator rejection. -/
theorem verify_outcomes (X : Collab) (token : Str) (key : Key) (validators : List Validator) :
    ('.' ∉ token →
      (JWT.verify X token key validators).result = Except.error Error.malformedToken) ∧
    (∀ p1 p2 p3, split token = Except.ok (p1, p2, p3) →
      (∀ e, key.verify (p1 ++ ['.'] ++ p2) p3 = Except.error e →
        (JWT.verify X token key validators).result = Except.error e) ∧
      (key.verify (p1 ++ ['.'] ++ p2) p3 = Except.ok false →
        (JWT.verify X token key validators).result = Except.ok false) ∧
      (key.verify (p1 ++ ['.'] ++ p2) p3 = Except.ok true →
        (∀ e, X.decodeSegment p2 = Except.error e →
          (JWT.verify X token key validators).result = Except.error e) ∧
        (∀ claims, X.decodeSegment p2 = Except.ok claims →
          (JWT.verify X token key validators).result
            = Except.ok (validators.all (fun v => v claims))))) := by
  refine ⟨?_, ?_⟩
  · intro hdot
    simp only [JWT.verify, split_no_dot token hdot]
  · intro p1 p2 p3 hsplit
    refine ⟨?_, ?_, ?_⟩
    · intro e hk
      simp only [JWT.verify, hsplit, hk]
    · intro hk
      simp only [JWT.verify, hsplit, hk]
    · intro hk
      refine ⟨?_, ?_⟩
      · intro e hc
        simp only [JWT.verify, hsplit, hk, hc]
      · intro claims hc
        simp only [JWT.verify, hsplit, hk, hc]
        congr 1
        rw [Bool.eq_iff_iff, validatorLoop_fst]
        simp

/-- Witness of C4 amended: a token without a separator, and the sample token
with a tampered signature and with a rejecting validator. -/
theorem verify_outcomes_witness :
    (JWT.verify Sample.collab "abc".toList Sample.key []).result
      = Except.error Error.malformedToken ∧
    (JWT.verify Sample.collab (Sample.token ++ ['0']) Sample.key []).result
      = Except.ok false ∧
    (JWT.verify Sample.collab Sample.token Sample.key [Validate.sub "9".toList]).result
      = Except.ok ([Validate.sub "9".toList].all (fun v => v Sample.claims)) :=
  ⟨(verify_outcomes Sample.collab "abc".toList Sample.key []).1 (by decide),
   ((verify_outcomes Sample.collab (Sample.token ++ ['0']) Sample.key []).2
      Sample.part1 Sample.part2 (Sample.part3 ++ ['0']) (by decide)).2.1 (by decide),
   (((verify_outcomes Sample.collab Sample.token Sample.key [Validate.sub "9".toList]).2
      Sample.part1 Sample.part2 Sample.part3 (by decide)).2.2 (by decide)).2
      Sample.claims (by decide)⟩

/-! ## Building a token and verifying it -/

/-- What `JWT::verify` does, without validators, with a token of two dot-free
segments followed by a signature segment. -/
theorem verify_three_segments (X : Collab) (key : Key) (h c sig : Str) (decoded : Pairs)
    (hh : '.' ∉ h) (hc : '.' ∉ c)
    (hverify : key.verify (h ++ ['.'] ++ c) sig = Except.ok true)
    (hdecode : X.decodeSegment c = Except.ok decoded) :
    (JWT.verify X (h ++ ['.'] ++ c ++ ['.'] ++ sig) key []).result = Except.ok true := by
  have hs := split_three_append h c sig hh hc
  simp only [JWT.verify, hs, hverify, hdecode, validatorLoop]

/-- C5: for the algorithm none and every claims map, header map and key
material, `token` returns the encoded header (with "typ" and "alg" set) followed
by a separator and the encoded claims; when the two encoded segments contain no
separator this token has exactly one separator and `split` finds an empty
third segment in it; and when moreover the encoded claims segment decodes,
`JWT::verify` of that token followed by a separator and any string, with a none
key over any key material and no validators, returns true. -/
theorem none_token (X : Collab) (claims header : Pairs) (keyData : Str)
    (hdot1 : '.' ∉ X.b64encode (X.toJSON
      ((header.assign "typ".toList "JWT".toList).assign "alg".toList "none".toList)))
    (hdot2 : '.' ∉ X.b64encode (X.toJSON claims))
    (hdecode : ∃ decoded, X.decodeSegment (X.b64encode (X.toJSON claims)) = Except.ok decoded) :
    (JWT.construct Algorithm.none claims header).token X keyData
      = Except.ok (X.b64encode (X.toJSON
          ((header.assign "typ".toList "JWT".toList).assign "alg".toList "none".toList))
          ++ ['.'] ++ X.b64encode (X.toJSON claims)) ∧
    List.count '.' (X.b64encode (X.toJSON
          ((header.assign "typ".toList "JWT".toList).assign "alg".toList "none".toList))
          ++ ['.'] ++ X.b64encode (X.toJSON claims)) = 1 ∧
    split (X.b64encode (X.toJSON
          ((header.assign "typ".toList "JWT".toList).assign "alg".toList "none".toList))
          ++ ['.'] ++ X.b64encode (X.toJSON claims))
      = Except.ok (X.b64encode (X.toJSON
          ((header.assign "typ".toList "JWT".toList).assign "alg".toList "none".toList)),
          X.b64encode (X.toJSON claims), []) ∧
    ∀ s anyKeyData : Str, ∃ key, Key.construct X Algorithm.none anyKeyData = Except.ok key ∧
      (JWT.verify X (X.b64encode (X.toJSON
          ((header.assign "typ".toList "JWT".toList).assign "alg".toList "none".toList))
          ++ ['.'] ++ X.b64encode (X.toJSON claims) ++ ['.'] ++ s) key []).result
        = Except.ok true := by
  obtain ⟨decoded, hdec⟩ := hdecode
  refine ⟨?_, ?_, split_two_append _ _ hdot1 hdot2, ?_⟩
  · simp only [JWT.token, JWT.construct, Key.construct, createKey, Key.sign, NoneKey,
      Collab.encodeSegment, algToString, if_true]
  · rw [List.count_append, List.count_append, List.count_eq_zero.mpr hdot1,
      List.count_eq_zero.mpr hdot2]
    rfl
  · intro s anyKeyData
    refine ⟨⟨Algorithm.none, NoneKey⟩, rfl, ?_⟩
    exact verify_three_segments X ⟨Algorithm.none, NoneKey⟩ _ _ s decoded hdot1 hdot2 rfl hdec

/-- Witness of C5: the sample claims under the algorithm none. -/
theorem none_token_witness :
    (JWT.construct Algorithm.none Sample.claims ⟨[]⟩).token Sample.collab "k".toList
      = Except.ok (Sample.collab.b64encode (Sample.collab.toJSON
          ((Pairs.assign ⟨[]⟩ "typ".toList "JWT".toList).assign "alg".toList "none".toList))
          ++ ['.'] ++ Sample.collab.b64encode (Sample.collab.toJSON Sample.claims)) ∧
    (∃ key, Key.construct Sample.collab Algorithm.none "other".toList = Except.ok key ∧
      (JWT.verify Sample.collab (Sample.collab.b64encode (Sample.collab.toJSON
          ((Pairs.assign ⟨[]⟩ "typ".toList "JWT".toList).assign "alg".toList "none".toList))
          ++ ['.'] ++ Sample.collab.b64encode (Sample.collab.toJSON Sample.claims)
          ++ ['.'] ++ "x.y".toList) key []).result = Except.ok true) :=
  have h := none_token Sample.collab Sample.claims ⟨[]⟩ "k".toList (by decide) (by decide)
    ⟨Sample.claims, by decide⟩
  ⟨h.1, h.2.2.2 "x.y".toList "other".toList⟩

/-! ## The map `Pairs` -/

theorem lookupEntry_assign_same (m : List (Str × Str)) (k v : Str) :
    lookupEntry (assignEntry m k v) k = some v := by
  induction m with
  | nil => simp [assignEntry, lookupEntry]
  | cons e m ih =>
    obtain ⟨k0, v0⟩ := e
    by_cases h : k0 = k
    · simp [assignEntry, lookupEntry, h]
    · simp [assignEntry, lookupEntry, h, ih]

theorem lookupEntry_assign_other (m : List (Str × Str)) (k v name : Str) (hne : name ≠ k) :
    lookupEntry (assignEntry m k v) name = lookupEntry m name := by
  induction m with
  | nil =>
    have h : ¬ k = name := fun e => hne e.symm
    simp [assignEntry, lookupEntry, h]
  | cons e m ih =>
    obtain ⟨k0, v0⟩ := e
    by_cases h : k0 = k
    · have h2 : ¬ k = name := fun e => hne e.symm
      simp [assignEntry, lookupEntry, h, h2]
    · by_cases h3 : k0 = name
      · subst h3
        simp [assignEntry, lookupEntry, hne]
      · simp [assignEntry, lookupEntry, h, h3, ih]

/-- Assigning to a key the value it has leaves the entries as they are. -/
theorem assignEntry_of_lookup (m : List (Str × Str)) (k v : Str)
    (h : lookupEntry m k = some v) : assignEntry m k v = m := by
  induction m with
  | nil => simp [lookupEntry] at h
  | cons e m ih =>
    obtain ⟨k0, v0⟩ := e
    by_cases h0 : k0 = k
    · simp only [lookupEntry, h0, if_true, Option.some.injEq] at h
      simp [assignEntry, h0, h]
    · simp only [lookupEntry, h0, if_false] at h
      simp [assignEntry, h0, ih h]

theorem find_assign_same (m : Pairs) (k v : Str) : (m.assign k v).find k = some v :=
  lookupEntry_assign_same m.entries k v

theorem find_assign_other (m : Pairs) (k v name : Str) (hne : name ≠ k) :
    (m.assign k v).find name = m.find name :=
  lookupEntry_assign_other m.entries k v name hne

theorem assign_of_find (m : Pairs) (k v : Str) (h : m.find k = some v) : m.assign k v = m := by
  cases m with
  | mk entries =>
    simp only [Pairs.assign]
    rw [assignEntry_of_lookup entries k v h]

/-- The header that the building constructor leaves: "typ" and "alg" are set,
every other key is as in the header supplied. -/
theorem construct_header_find (alg : Algorithm) (claims header : Pairs) :
    (JWT.construct alg claims header).m_header.find "typ".toList = some "JWT".toList ∧
    (JWT.construct alg claims header).m_header.find "alg".toList = some (algToString alg) ∧
    ∀ name : Str, name ≠ "typ".toList → name ≠ "alg".toList →
      (JWT.construct alg claims header).m_header.find name = header.find name := by
  refine ⟨?_, ?_, ?_⟩
  · simp only [JWT.construct]
    rw [find_assign_other _ _ _ _ (by decide), find_assign_same]
  · simp only [JWT.construct]
    rw [find_assign_same]
  · intro name h1 h2
    simp only [JWT.construct]
    rw [find_assign_other _ _ _ _ h2, find_assign_other _ _ _ _ h1]

/-! ## The validators, claim by claim -/

/-- C11: for every time `now` that is not negative (a `std::time_t`, so below
`2 ^ 63`), a claims map whose "exp" value is the decimal representation of `now`
is rejected by `Validate::exp(now)`, one whose "nbf" value is that
representation is rejected by `Validate::nbf(now)`, and one whose "iat" value is
that representation is rejected by `Validate::iat(now)`. -/
theorem time_validators_strict (claims : Pairs) (now : Int) (h0 : 0 ≤ now) (hmax : now < 2 ^ 63) :
    (claims.find "exp".toList = some (Nat.toDigits 10 now.toNat) →
      Validate.exp now claims = false) ∧
    (claims.find "nbf".toList = some (Nat.toDigits 10 now.toNat) →
      Validate.nbf now claims = false) ∧
    (claims.find "iat".toList = some (Nat.toDigits 10 now.toNat) →
      Validate.iat now claims = false) := by
  have hn : now.toNat < 2 ^ 63 := by omega
  have hu : ¬ now.toNat > ULLONG_MAX := by simp only [ULLONG_MAX]; omega
  have hcast : ((now.toNat : Nat) : Int) = now := Int.toNat_of_nonneg h0
  refine ⟨?_, ?_, ?_⟩ <;> intro hfind <;>
    simp only [Validate.exp, Validate.nbf, Validate.iat, validTimeClaim, validClaim, hfind,
      validTime_toDigits, hu, if_false, to_time_t_small _ hn, hcast, gt_iff_lt, lt_self_iff_false,
      decide_False]

/-- Witness of C11: now is 1700000000 and so are "exp", "nbf" and "iat". -/
theorem time_validators_strict_witness :
    Validate.exp 1700000000 ⟨[("exp".toList, "1700000000".toList)]⟩ = false ∧
    Validate.nbf 1700000000 ⟨[("nbf".toList, "1700000000".toList)]⟩ = false ∧
    Validate.iat 1700000000 ⟨[("iat".toList, "1700000000".toList)]⟩ = false :=
  ⟨(time_validators_strict ⟨[("exp".toList, "1700000000".toList)]⟩ 1700000000
      (by decide) (by decide)).1 (by decide),
   (time_validators_strict ⟨[("nbf".toList, "1700000000".toList)]⟩ 1700000000
      (by decide) (by decide)).2.1 (by decide),
   (time_validators_strict ⟨[("iat".toList, "1700000000".toList)]⟩ 1700000000
      (by decide) (by decide)).2.2 (by decide)⟩

theorem stripSign_dropSign (s : Str) :
    (stripSign s).2.2 = dropSign s ∧ (stripSign s).2.1 + (dropSign s).length = s.length := by
  cases s with
  | nil => simp [stripSign, dropSign]
  | cons c r =>
    by_cases hm : c = '-'
    · simp [stripSign, dropSign, hm]
      omega
    · by_cases hp : c = '+'
      · simp [stripSign, dropSign, hp]
        omega
      · simp [stripSign, dropSign, hm, hp]

theorem takeWhile_length_eq (p : Char → Bool) (l : Str)
    (h : (l.takeWhile p).length = l.length) : l.takeWhile p = l := by
  have e := List.takeWhile_append_dropWhile p l
  have hl : (l.takeWhile p).length + (l.dropWhile p).length = l.length := by
    rw [← List.length_append, e]
  have hd : l.dropWhile p = [] := List.length_eq_zero.mp (by omega)
  rw [hd, List.append_nil] at e
  exact e

/-- What `std::stoull` returns when it returns: the digits are there, and `pos`
counts the white space, the sign and the digits. -/
theorem stoull_ok (value : Str) (t pos : Nat) (h : stoull value = Except.ok (t, pos)) :
    (dropSign (value.dropWhile isspace)).takeWhile Char.isDigit ≠ [] ∧
    pos = (value.takeWhile isspace).length + (stripSign (value.dropWhile isspace)).2.1 +
      ((dropSign (value.dropWhile isspace)).takeWhile Char.isDigit).length := by
  have hs := (stripSign_dropSign (value.dropWhile isspace)).1
  simp only [stoull, hs] at h
  split_ifs at h with h1 h2 h3 <;>
    (refine ⟨h1, ?_⟩
     injection h with h
     injection h with _ h
     exact h.symm)

/-- A value that `validTime` lets through to `next` is numeric. -/
theorem validTime_numeric (value : Str) (next : Nat → Bool) (h : validTime value next = true) :
    isNumeric value = true := by
  unfold validTime at h
  cases hst : stoull value with
  | error e => rw [hst] at h; exact absurd h (by simp)
  | ok r =>
    obtain ⟨t, pos⟩ := r
    rw [hst] at h
    obtain ⟨hne, hpos⟩ := stoull_ok value t pos hst
    by_cases hp : pos = value.length
    · have hsum := (stripSign_dropSign (value.dropWhile isspace)).2
      have hlen : (value.takeWhile isspace).length + (value.dropWhile isspace).length
          = value.length := by
        rw [← List.length_append, List.takeWhile_append_dropWhile]
      have htl : ((dropSign (value.dropWhile isspace)).takeWhile Char.isDigit).length
          = (dropSign (value.dropWhile isspace)).length := by omega
      have hall := takeWhile_length_eq _ _ htl
      have hbody : dropSign (value.dropWhile isspace) ≠ [] := by
        intro e
        rw [e] at hne
        exact hne rfl
      have hdig : ∀ c ∈ dropSign (value.dropWhile isspace), c.isDigit = true :=
        List.takeWhile_eq_self_iff.mp hall
      simp only [isNumeric, Bool.and_eq_true, Bool.not_eq_true', List.isEmpty_eq_false,
        List.all_eq_true]
      exact ⟨hbody, hdig⟩
    · simp [hp] at h

/-- C12: for each time validator (exp, nbf, iat) and every time `now`: when the
claim is present and its value is malformed, that is not numeric (it has no
number at its start, as the empty value, or it has characters after the
number), the validator returns false; it is a function into the Booleans, so no
error is raised. -/
theorem time_validators_malformed (claims : Pairs) (now : Int) (value : Str)
    (hmal : isNumeric value = false) :
    (claims.find "exp".toList = some value → Validate.exp now claims = false) ∧
    (claims.find "nbf".toList = some value → Validate.nbf now claims = false) ∧
    (claims.find "iat".toList = some value → Validate.iat now claims = false) := by
  have hrej : ∀ next : Nat → Bool, validTime value next = false := by
    intro next
    by_contra hcon
    have ht : validTime value next = true := by simpa using hcon
    rw [validTime_numeric value next ht] at hmal
    exact absurd hmal (by simp)
  refine ⟨?_, ?_, ?_⟩ <;> intro hfind <;>
    simp only [Validate.exp, Validate.nbf, Validate.iat, validTimeClaim, validClaim, hfind, hrej]

/-- Witness of C12: the empty value, a value without a number and a value with
characters after the number. -/
theorem time_validators_malformed_witness :
    Validate.exp 0 ⟨[("exp".toList, [])]⟩ = false ∧
    Validate.nbf 1700000000 ⟨[("nbf".toList, "soon".toList)]⟩ = false ∧
    Validate.iat 1700000000 ⟨[("iat".toList, "1600000000s".toList)]⟩ = false :=
  ⟨(time_validators_malformed ⟨[("exp".toList, [])]⟩ 0 [] (by decide)).1 (by decide),
   (time_validators_malformed ⟨[("nbf".toList, "soon".toList)]⟩ 1700000000 "soon".toList
      (by decide)).2.1 (by decide),
   (time_validators_malformed ⟨[("iat".toList, "1600000000s".toList)]⟩ 1700000000
      "1600000000s".toList (by decide)).2.2 (by decide)⟩

/-- C13: each of the six validators accepts, for every value of its parameter,
a claims map that does not contain its claim name. -/
theorem absent_claim_accepted (claims : Pairs) (now : Int) (expected : Str) :
    (claims.find "exp".toList = none → Validate.exp now claims = true) ∧
    (claims.find "nbf".toList = none → Validate.nbf now claims = true) ∧
    (claims.find "iat".toList = none → Validate.iat now claims = true) ∧
    (claims.find "iss".toList = none → Validate.iss expected claims = true) ∧
    (claims.find "aud".toList = none → Validate.aud expected claims = true) ∧
    (claims.find "sub".toList = none → Validate.sub expected claims = true) := by
  refine ⟨?_, ?_, ?_, ?_, ?_, ?_⟩ <;> intro hfind <;>
    simp only [Validate.exp, Validate.nbf, Validate.iat, Validate.iss, Validate.aud,
      Validate.sub, stringValidator, validTimeClaim, validClaim, hfind]

/-- Witness of C13: a claims map that has only a "jti" entry. -/
theorem absent_claim_accepted_witness :
    Validate.exp 1700000000 ⟨[("jti".toList, "7".toList)]⟩ = true ∧
    Validate.aud "shop".toList ⟨[("jti".toList, "7".toList)]⟩ = true :=
  ⟨(absent_claim_accepted ⟨[("jti".toList, "7".toList)]⟩ 1700000000 "shop".toList).1
      (by decide),
   (absent_claim_accepted ⟨[("jti".toList, "7".toList)]⟩ 1700000000 "shop".toList).2.2.2.2.1
      (by decide)⟩

/-- C14: for each of the validators iss, aud and sub with the expected value
`expected`, and every claims map in which the claim is present with the value
`v`, the validator returns true exactly when `v` equals `expected`, as whole
strings and character by character. -/
theorem string_validators_iff (claims : Pairs) (expected v : Str) :
    (claims.find "iss".toList = some v → (Validate.iss expected claims = true ↔ v = expected)) ∧
    (claims.find "aud".toList = some v → (Validate.aud expected claims = true ↔ v = expected)) ∧
    (claims.find "sub".toList = some v → (Validate.sub expected claims = true ↔ v = expected)) := by
  refine ⟨?_, ?_, ?_⟩ <;> intro hfind <;>
    simp only [Validate.iss, Validate.aud, Validate.sub, stringValidator, validClaim, hfind,
      decide_eq_true_eq]

/-- Witness of C14: the subject "123" against the expected "123", and the issuer
"Auth" against the expected "auth", which differs in case. -/
theorem string_validators_iff_witness :
    (Validate.sub "123".toList ⟨[("sub".toList, "123".toList)]⟩ = true ↔
      "123".toList = "123".toList) ∧
    (Validate.iss "auth".toList ⟨[("iss".toList, "Auth".toList)]⟩ = true ↔
      "Auth".toList = "auth".toList) :=
  ⟨(string_validators_iff ⟨[("sub".toList, "123".toList)]⟩ "123".toList "123".toList).2.2
      (by decide),
   (string_validators_iff ⟨[("iss".toList, "Auth".toList)]⟩ "auth".toList "Auth".toList).1
      (by decide)⟩

/-! ## The building constructor -/

/-- C15: for every algorithm, claims map and header map, also a header that
has "typ" or "alg" entries of its own, the entity of the building constructor
has a header that maps "typ" to "JWT" and "alg" to `algToString alg` and agrees
with the supplied header on every other key; its claims are the supplied claims
and its algorithm the supplied one. -/
theorem construct_entity (alg : Algorithm) (claims header : Pairs) :
    (JWT.construct alg claims header).m_header.find "typ".toList = some "JWT".toList ∧
    (JWT.construct alg claims header).m_header.find "alg".toList = some (algToString alg) ∧
    (∀ name : Str, name ≠ "typ".toList → name ≠ "alg".toList →
      (JWT.construct alg claims header).m_header.find name = header.find name) ∧
    (JWT.construct alg claims header).m_claims = claims ∧
    (JWT.construct alg claims header).m_alg = alg :=
  ⟨(construct_header_find alg claims header).1, (construct_header_find alg claims header).2.1,
    (construct_header_find alg claims header).2.2, rfl, rfl⟩

/-- Witness of C15: a header that has a "typ" of its own and a key id. -/
theorem construct_entity_witness :
    (JWT.construct Algorithm.HS256 Sample.claims Sample.wireHeader).m_header.find "typ".toList
      = some "JWT".toList ∧
    (JWT.construct Algorithm.HS256 Sample.claims Sample.wireHeader).m_header.find "kid".toList
      = Sample.wireHeader.find "kid".toList :=
  ⟨(construct_entity Algorithm.HS256 Sample.claims Sample.wireHeader).1,
   (construct_entity Algorithm.HS256 Sample.claims Sample.wireHeader).2.2.1 "kid".toList
     (by decide) (by decide)⟩

/-! ## `JWT::parse` -/

/-- What `JWT::parse` returns on a token that splits and whose two segments
decode, by the "alg" entry of the decoded header. -/
theorem parse_eq (X : Collab) (token p0 p1 p2 : Str) (header claims : Pairs)
    (hsplit : split token = Except.ok (p0, p1, p2))
    (hh : X.decodeSegment p0 = Except.ok header)
    (hc : X.decodeSegment p1 = Except.ok claims) :
    JWT.parse X token =
      match header.find "alg".toList with
      | none => Except.ok (JWT.construct Algorithm.none claims (header.assign "alg".toList []))
      | some v =>
        if v = [] then Except.ok (JWT.construct Algorithm.none claims header)
        else
          match stringToAlg v with
          | Except.error e => Except.error e
          | Except.ok alg => Except.ok (JWT.construct alg claims header) := by
  cases hf : header.find "alg".toList with
  | none => simp only [JWT.parse, hsplit, hh, hc, Pairs.index, hf, ne_eq, not_true, if_false]
  | some v =>
    by_cases hv : v = []
    · simp only [JWT.parse, hsplit, hh, hc, Pairs.index, hf, hv, ne_eq, not_true, if_false,
        if_true]
    · simp only [JWT.parse, hsplit, hh, hc, Pairs.index, hf, hv, ne_eq, not_false_eq_true,
        if_true, if_false]

/-- A token that `JWT::parse` accepts splits, and its two segments decode. -/
theorem parse_inv (X : Collab) (token : Str) (entity : JWT)
    (h : JWT.parse X token = Except.ok entity) :
    ∃ p0 p1 p2 header claims, split token = Except.ok (p0, p1, p2) ∧
      X.decodeSegment p0 = Except.ok header ∧ X.decodeSegment p1 = Except.ok claims := by
  cases hs : split token with
  | error e => simp only [JWT.parse, hs] at h; exact absurd h (by simp)
  | ok parts =>
    obtain ⟨p0, p1, p2⟩ := parts
    cases hh : X.decodeSegment p0 with
    | error e => simp only [JWT.parse, hs, hh] at h; exact absurd h (by simp)
    | ok header =>
      cases hc : X.decodeSegment p1 with
      | error e => simp only [JWT.parse, hs, hh, hc] at h; exact absurd h (by simp)
      | ok claims => exact ⟨p0, p1, p2, header, claims, rfl, hh, hc⟩

theorem stringToAlg_canonical (s : Str) (hs : s ∈ canonicalNames) :
    ∃ a, stringToAlg s = Except.ok a := by
  by_contra hno
  have hex : ∀ a, algToString a ≠ s := by
    intro a ha
    exact hno ⟨a, by rw [← ha]; exact stringToAlg_algToString a⟩
  simp only [canonicalNames, List.mem_cons, List.mem_singleton, List.not_mem_nil,
    or_false] at hs
  rcases hs with e | e | e | e | e | e | e | e | e | e
  · exact hex Algorithm.none e.symm
  · exact hex Algorithm.HS256 e.symm
  · exact hex Algorithm.HS384 e.symm
  · exact hex Algorithm.HS512 e.symm
  · exact hex Algorithm.RS256 e.symm
  · exact hex Algorithm.RS384 e.symm
  · exact hex Algorithm.RS512 e.symm
  · exact hex Algorithm.ES256 e.symm
  · exact hex Algorithm.ES384 e.symm
  · exact hex Algorithm.ES512 e.symm

theorem algToString_ne_nil (alg : Algorithm) : algToString alg ≠ [] := by
  cases alg <;> decide

/-- C16: for every token that `JWT::parse` accepts, the token splits, its two
segments decode, the claims of the entity are the decoded claims, the algorithm
of the entity is `stringToAlg` of the "alg" value of the decoded header when
that value is present and not empty, and it is none when "alg" is absent or
empty. -/
theorem parse_algorithm (X : Collab) (token : Str) (entity : JWT)
    (h : JWT.parse X token = Except.ok entity) :
    ∃ p0 p1 p2 header claims, split token = Except.ok (p0, p1, p2) ∧
      X.decodeSegment p0 = Except.ok header ∧ X.decodeSegment p1 = Except.ok claims ∧
      entity.m_claims = claims ∧
      (∀ v, header.find "alg".toList = some v → v ≠ [] →
        stringToAlg v = Except.ok entity.m_alg) ∧
      ((header.find "alg".toList = none ∨ header.find "alg".toList = some []) →
        entity.m_alg = Algorithm.none) := by
  obtain ⟨p0, p1, p2, header, claims, hs, hh, hc⟩ := parse_inv X token entity h
  refine ⟨p0, p1, p2, header, claims, hs, hh, hc, ?_⟩
  rw [parse_eq X token p0 p1 p2 header claims hs hh hc] at h
  cases hf : header.find "alg".toList with
  | none =>
    simp only [hf] at h
    injection h with h
    subst h
    exact ⟨rfl, by intro v hv; exact absurd hv (by simp), fun _ => rfl⟩
  | some v =>
    simp only [hf] at h
    by_cases hv : v = []
    · simp only [hv, if_true] at h
      injection h with h
      subst h
      refine ⟨rfl, ?_, fun _ => rfl⟩
      intro w hw hne
      injection hw with hw
      exact absurd (hw.symm.trans hv) hne
    · simp only [hv, if_false] at h
      cases hst : stringToAlg v with
      | error e => simp only [hst] at h; exact absurd h (by simp)
      | ok alg =>
        simp only [hst] at h
        injection h with h
        subst h
        refine ⟨rfl, ?_, ?_⟩
        · intro w hw _
          injection hw with hw
          rw [← hw, hst]
          rfl
        · intro hor
          rcases hor with e | e
          · exact absurd e (by simp)
          · injection e with e
            exact absurd e hv

/-- Witness of C16: the sample token parses to an `HS256` entity. -/
theorem parse_algorithm_witness :
    ∃ p0 p1 p2 header claims, split Sample.token = Except.ok (p0, p1, p2) ∧
      Sample.collab.decodeSegment p0 = Except.ok header ∧
      Sample.collab.decodeSegment p1 = Except.ok claims ∧
      (JWT.construct Algorithm.HS256 Sample.claims ⟨[]⟩).m_claims = claims ∧
      (∀ v, header.find "alg".toList = some v → v ≠ [] →
        stringToAlg v = Except.ok (JWT.construct Algorithm.HS256 Sample.claims ⟨[]⟩).m_alg) ∧
      ((header.find "alg".toList = none ∨ header.find "alg".toList = some []) →
        (JWT.construct Algorithm.HS256 Sample.claims ⟨[]⟩).m_alg = Algorithm.none) :=
  parse_algorithm Sample.collab Sample.token (JWT.construct Algorithm.HS256 Sample.claims ⟨[]⟩)
    (by decide)

/-- C17, as far as it fails: the token `Sample.bogusToken` has a separator and
both its segments decode, the header to a map with the "alg" value "bogus", and
`JWT::parse` raises the invalid-algorithm error on it. -/
theorem parse_raises_invalid_algorithm :
    '.' ∈ Sample.bogusToken ∧
    split Sample.bogusToken = Except.ok
      (Sample.collab.encodeSegment ⟨[("alg".toList, "bogus".toList)]⟩, Sample.part2, []) ∧
    Sample.collab.decodeSegment (Sample.collab.encodeSegment ⟨[("alg".toList, "bogus".toList)]⟩)
      = Except.ok ⟨[("alg".toList, "bogus".toList)]⟩ ∧
    Sample.collab.decodeSegment Sample.part2 = Except.ok Sample.claims ∧
    JWT.parse Sample.collab Sample.bogusToken
      = Except.error (Error.invalidAlgorithm "bogus".toList) := by
  decide

/-- C17, amended: for every token with a separator, so that `split` returns
`p0`, `p1`, `p2`, whose header and claims segments both decode, `JWT::parse`
succeeds exactly when the "alg" value of the decoded header is absent, empty or
one of the ten canonical names; for every other "alg" value it raises the
invalid-algorithm error of `stringToAlg`. -/
theorem parse_succeeds_iff (X : Collab) (token p0 p1 p2 : Str) (header claims : Pairs)
    (hsplit : split token = Except.ok (p0, p1, p2))
    (hh : X.decodeSegment p0 = Except.ok header)
    (hc : X.decodeSegment p1 = Except.ok claims) :
    ((∃ entity, JWT.parse X token = Except.ok entity) ↔
      (header.find "alg".toList = none ∨ header.find "alg".toList = some [] ∨
        ∃ v, v ∈ canonicalNames ∧ header.find "alg".toList = some v)) ∧
    (∀ v, header.find "alg".toList = some v → v ≠ [] → v ∉ canonicalNames →
      JWT.parse X token = Except.error (Error.invalidAlgorithm v)) := by
  rw [parse_eq X token p0 p1 p2 header claims hsplit hh hc]
  cases hf : header.find "alg".toList with
  | none => simp
  | some v =>
    by_cases hv : v = []
    · subst hv
      simp
    · by_cases hcan : v ∈ canonicalNames
      · obtain ⟨a, ha⟩ := stringToAlg_canonical v hcan
        simp only [hv, if_false, ha]
        refine ⟨?_, ?_⟩
        · constructor
          · intro _
            exact Or.inr (Or.inr ⟨v, hcan, rfl⟩)
          · intro _
            exact ⟨_, rfl⟩
        · intro w hw _ hnc
          injection hw with hw
          subst hw
          exact absurd hcan hnc
      · have herr := stringToAlg_error v hcan
        simp only [hv, if_false, herr]
        refine ⟨?_, ?_⟩
        · constructor
          · rintro ⟨entity, he⟩
            exact absurd he (by simp)
          · intro hor
            rcases hor with e | e | ⟨w, hw, e⟩
            · exact absurd e (by simp)
            · injection e with e
              exact absurd e hv
            · injection e with e
              subst e
              exact absurd hw hcan
        · intro w hw _ _
          injection hw with hw
          subst hw
          rfl

/-- Witness of C17 amended: the sample token, whose header has the "alg" value
"HS256", is accepted. -/
theorem parse_succeeds_iff_witness :
    (∃ entity, JWT.parse Sample.collab Sample.token = Except.ok entity) ↔
      ((JWT.construct Algorithm.HS256 Sample.claims ⟨[]⟩).m_header.find "alg".toList = none ∨
        (JWT.construct Algorithm.HS256 Sample.claims ⟨[]⟩).m_header.find "alg".toList
          = some [] ∨
        ∃ v, v ∈ canonicalNames ∧
          (JWT.construct Algorithm.HS256 Sample.claims ⟨[]⟩).m_header.find "alg".toList
            = some v) :=
  (parse_succeeds_iff Sample.collab Sample.token Sample.part1 Sample.part2 Sample.part3
    (JWT.construct Algorithm.HS256 Sample.claims ⟨[]⟩).m_header Sample.claims
    (by decide) (by decide) (by decide)).1

/-- C18, as far as it fails: the header segment of `Sample.wireToken` decodes to
a map with the "typ" value "JWS", and the entity that `JWT::parse` returns has
the "typ" value "JWT" in its header; and the header segment of the token that
starts with the separator decodes to the empty map, while the header of the
entity has a "typ" and an "alg" entry. -/
theorem parse_rewrites_header :
    (split Sample.wireToken
        = Except.ok (Sample.collab.encodeSegment Sample.wireHeader, Sample.part2, []) ∧
      Sample.collab.decodeSegment (Sample.collab.encodeSegment Sample.wireHeader)
        = Except.ok Sample.wireHeader ∧
      JWT.parse Sample.collab Sample.wireToken
        = Except.ok (JWT.construct Algorithm.HS256 Sample.claims Sample.wireHeader) ∧
      (JWT.construct Algorithm.HS256 Sample.claims Sample.wireHeader).m_header
        ≠ Sample.wireHeader ∧
      Sample.wireHeader.find "typ".toList = some "JWS".toList ∧
      (JWT.construct Algorithm.HS256 Sample.claims Sample.wireHeader).m_header.find "typ".toList
        = some "JWT".toList) ∧
    (split ('.' :: Sample.part2) = Except.ok ([], Sample.part2, []) ∧
      Sample.collab.decodeSegment [] = Except.ok ⟨[]⟩ ∧
      JWT.parse Sample.collab ('.' :: Sample.part2)
        = Except.ok ⟨Algorithm.none,
            ⟨[("alg".toList, "none".toList), ("typ".toList, "JWT".toList)]⟩, Sample.claims⟩) := by
  decide

/-- C18, amended: for every token that `JWT::parse` accepts, the header of the
resulting entity maps "typ" to "JWT" and "alg" to the name of the algorithm of
the entity, and it agrees on every other key with the map that the first
segment of the token decodes to; it is exactly that map when the map has the
"typ" value "JWT" and an "alg" value that is not empty. -/
theorem parse_header (X : Collab) (token : Str) (entity : JWT)
    (h : JWT.parse X token = Except.ok entity) :
    ∃ p0 p1 p2 header, split token = Except.ok (p0, p1, p2) ∧
      X.decodeSegment p0 = Except.ok header ∧
      entity.m_header.find "typ".toList = some "JWT".toList ∧
      entity.m_header.find "alg".toList = some (algToString entity.m_alg) ∧
      (∀ name : Str, name ≠ "typ".toList → name ≠ "alg".toList →
        entity.m_header.find name = header.find name) ∧
      (header.find "typ".toList = some "JWT".toList →
        (∃ v, v ≠ [] ∧ header.find "alg".toList = some v) → entity.m_header = header) := by
  obtain ⟨p0, p1, p2, header, claims, hs, hh, hc⟩ := parse_inv X token entity h
  refine ⟨p0, p1, p2, header, hs, hh, ?_⟩
  rw [parse_eq X token p0 p1 p2 header claims hs hh hc] at h
  cases hf : header.find "alg".toList with
  | none =>
    simp only [hf] at h
    injection h with h
    subst h
    obtain ⟨h1, h2, h3⟩ :=
      construct_header_find Algorithm.none claims (header.assign "alg".toList [])
    refine ⟨h1, h2, ?_, ?_⟩
    · intro name hn1 hn2
      rw [h3 name hn1 hn2, find_assign_other _ _ _ _ hn2]
    · rintro _ ⟨v, _, hv⟩
      exact absurd hv (by simp)
  | some v =>
    simp only [hf] at h
    by_cases hv : v = []
    · simp only [hv, if_true] at h
      injection h with h
      subst h
      obtain ⟨h1, h2, h3⟩ := construct_header_find Algorithm.none claims header
      refine ⟨h1, h2, h3, ?_⟩
      rintro _ ⟨w, hw, hfw⟩
      injection hfw with hfw
      exact absurd (hfw.symm.trans hv) hw
    · simp only [hv, if_false] at h
      cases hst : stringToAlg v with
      | error e => simp only [hst] at h; exact absurd h (by simp)
      | ok alg =>
        simp only [hst] at h
        injection h with h
        subst h
        obtain ⟨h1, h2, h3⟩ := construct_header_find alg claims header
        refine ⟨h1, h2, h3, ?_⟩
        intro htyp _
        have hname : algToString alg = v := stringToAlg_ok v alg hst
        simp only [JWT.construct]
        rw [assign_of_find header _ _ htyp, hname, assign_of_find header _ _ hf]

/-- Witness of C18 amended: the header of the entity parsed from the sample
token is the header that the token was built with. -/
theorem parse_header_witness :
    ∃ p0 p1 p2 header, split Sample.token = Except.ok (p0, p1, p2) ∧
      Sample.collab.decodeSegment p0 = Except.ok header ∧
      (JWT.construct Algorithm.HS256 Sample.claims ⟨[]⟩).m_header.find "typ".toList
        = some "JWT".toList ∧
      (JWT.construct Algorithm.HS256 Sample.claims ⟨[]⟩).m_header.find "alg".toList
        = some (algToString (JWT.construct Algorithm.HS256 Sample.claims ⟨[]⟩).m_alg) ∧
      (∀ name : Str, name ≠ "typ".toList → name ≠ "alg".toList →
        (JWT.construct Algorithm.HS256 Sample.claims ⟨[]⟩).m_header.find name
          = header.find name) ∧
      (header.find "typ".toList = some "JWT".toList →
        (∃ v, v ≠ [] ∧ header.find "alg".toList = some v) →
        (JWT.construct Algorithm.HS256 Sample.claims ⟨[]⟩).m_header = header) :=
  parse_header Sample.collab Sample.token (JWT.construct Algorithm.HS256 Sample.claims ⟨[]⟩)
    (by decide)

/-! ## The entity of the verifying constructor -/

/-- C19: whenever the verifying constructor succeeds, the token splits, the
algorithm of the entity is the algorithm of the key, and its header and claims
are what the first and the second segment decode to, with nothing set in them;
the "alg" entry of the header plays no part, and it need not be the name of the
algorithm of the entity: the sample token, built for `HS256`, is accepted under
an `HS512` key. -/
theorem constructVerified_entity :
    (∀ (X : Collab) (token : Str) (key : Key) (validators : List Validator) (entity : JWT),
      (JWT.constructVerified X token key validators).result = Except.ok entity →
      ∃ p0 p1 p2, split token = Except.ok (p0, p1, p2) ∧ entity.m_alg = key.alg ∧
        X.decodeSegment p0 = Except.ok entity.m_header ∧
        X.decodeSegment p1 = Except.ok entity.m_claims) ∧
    (∃ (X : Collab) (token : Str) (key : Key) (validators : List Validator) (entity : JWT),
      (JWT.constructVerified X token key validators).result = Except.ok entity ∧
      entity.m_header.find "alg".toList ≠ some (algToString entity.m_alg)) := by
  refine ⟨?_, ?_⟩
  · intro X token key validators entity h
    cases hs : split token with
    | error e => simp only [JWT.constructVerified, hs] at h; exact absurd h (by simp)
    | ok parts =>
      obtain ⟨p0, p1, p2⟩ := parts
      refine ⟨p0, p1, p2, rfl, ?_⟩
      cases hk : key.verify (p0 ++ ['.'] ++ p1) p2 with
      | error e => simp only [JWT.constructVerified, hs, hk] at h; exact absurd h (by simp)
      | ok b =>
        cases b with
        | false => simp only [JWT.constructVerified, hs, hk] at h; exact absurd h (by simp)
        | true =>
          cases hh : X.decodeSegment p0 with
          | error e =>
            simp only [JWT.constructVerified, hs, hk, hh] at h
            exact absurd h (by simp)
          | ok header =>
            cases hc : X.decodeSegment p1 with
            | error e =>
              simp only [JWT.constructVerified, hs, hk, hh, hc] at h
              exact absurd h (by simp)
            | ok claims =>
              by_cases hall : (validatorLoop claims validators 0).1 = true
              · simp only [JWT.constructVerified, hs, hk, hh, hc, hall, if_true] at h
                injection h with h
                subst h
                exact ⟨rfl, rfl, rfl⟩
              · simp only [JWT.constructVerified, hs, hk, hh, hc, hall] at h
                exact absurd h (by simp)
  · exact ⟨Sample.collab, Sample.token, Sample.key512, [],
      ⟨Algorithm.HS512, (JWT.construct Algorithm.HS256 Sample.claims ⟨[]⟩).m_header,
        Sample.claims⟩, by decide, by decide⟩

/-- Witness of C19: the sample token under the `HS512` key. -/
theorem constructVerified_entity_witness :
    ∃ p0 p1 p2, split Sample.token = Except.ok (p0, p1, p2) ∧
      Algorithm.HS512 = Sample.key512.alg ∧
      Sample.collab.decodeSegment p0
        = Except.ok (JWT.construct Algorithm.HS256 Sample.claims ⟨[]⟩).m_header ∧
      Sample.collab.decodeSegment p1 = Except.ok Sample.claims :=
  constructVerified_entity.1 Sample.collab Sample.token Sample.key512 []
    ⟨Algorithm.HS512, (JWT.construct Algorithm.HS256 Sample.claims ⟨[]⟩).m_header,
      Sample.claims⟩ (by decide)

/-! ## Building a token and parsing it -/

/-- What `JWT::parse` does with a token of two dot-free segments that decode to
the header and the claims of a built entity, whatever follows them. -/
theorem parse_built (X : Collab) (alg : Algorithm) (claims header : Pairs) (token p2 : Str)
    (hsplit : split token = Except.ok
      (X.encodeSegment (JWT.construct alg claims header).m_header, X.encodeSegment claims, p2))
    (hdec1 : X.decodeSegment (X.encodeSegment (JWT.construct alg claims header).m_header)
      = Except.ok (JWT.construct alg claims header).m_header)
    (hdec2 : X.decodeSegment (X.encodeSegment claims) = Except.ok claims) :
    JWT.parse X token = Except.ok (JWT.construct alg claims header) := by
  obtain ⟨h1, h2, _⟩ := construct_header_find alg claims header
  rw [parse_eq X token _ _ p2 _ claims hsplit hdec1 hdec2]
  simp only [h2, algToString_ne_nil alg, if_false, stringToAlg_algToString]
  have hhdr : (JWT.construct alg claims (JWT.construct alg claims header).m_header).m_header
      = (JWT.construct alg claims header).m_header := by
    show (((JWT.construct alg claims header).m_header.assign "typ".toList "JWT".toList).assign
      "alg".toList (algToString alg)) = (JWT.construct alg claims header).m_header
    rw [assign_of_find _ _ _ h1, assign_of_find _ _ _ h2]
  show Except.ok (JWT.construct alg claims (JWT.construct alg claims header).m_header)
    = Except.ok (JWT.construct alg claims header)
  congr 1
  have e1 : (JWT.construct alg claims (JWT.construct alg claims header).m_header)
      = ⟨alg, (JWT.construct alg claims (JWT.construct alg claims header).m_header).m_header,
          claims⟩ := rfl
  rw [e1, hhdr]
  rfl

/-- C20, as far as it fails: for the algorithm `RS256`, the sample claims, the
empty header and the empty key material, the two encoded segments contain no
separator and decoding gives the header of the built entity and the claims back
from their encodings, so all that the claim assumes holds; yet `token` returns
no token to parse: the key is not built, and the error of the key class leaves
`token`. -/
theorem token_raises_without_key :
    '.' ∉ Sample.collab.encodeSegment
      (JWT.construct Algorithm.RS256 Sample.claims ⟨[]⟩).m_header ∧
    '.' ∉ Sample.collab.encodeSegment Sample.claims ∧
    Sample.collab.decodeSegment (Sample.collab.encodeSegment
        (JWT.construct Algorithm.RS256 Sample.claims ⟨[]⟩).m_header)
      = Except.ok (JWT.construct Algorithm.RS256 Sample.claims ⟨[]⟩).m_header ∧
    Sample.collab.decodeSegment (Sample.collab.encodeSegment Sample.claims)
      = Except.ok Sample.claims ∧
    Key.construct Sample.collab Algorithm.RS256 []
      = Except.error (Error.collaborator "no key".toList) ∧
    (JWT.construct Algorithm.RS256 Sample.claims ⟨[]⟩).token Sample.collab []
      = Except.error (Error.collaborator "no key".toList) ∧
    ¬ ∃ t, (JWT.construct Algorithm.RS256 Sample.claims ⟨[]⟩).token Sample.collab []
        = Except.ok t ∧
      JWT.parse Sample.collab t
        = Except.ok (JWT.construct Algorithm.RS256 Sample.claims ⟨[]⟩) := by
  refine ⟨by decide, by decide, by decide, by decide, rfl, by decide, ?_⟩
  rintro ⟨t, ht, _⟩
  have herr : (JWT.construct Algorithm.RS256 Sample.claims ⟨[]⟩).token Sample.collab []
      = Except.error (Error.collaborator "no key".toList) := by decide
  rw [herr] at ht
  exact absurd ht (by simp)

/-- C20, amended: for every algorithm, claims map, header map and key material
from which the key is built and with which it signs the signing input: when the
two encoded segments contain no separator, and decoding gives the header of the
built entity and the claims back from their encodings, then `token` returns a
token and `JWT::parse` of it succeeds with the built entity: the same algorithm,
the same claims and the same header, "typ" and "alg" included. -/
theorem token_then_parse (X : Collab) (alg : Algorithm) (claims header : Pairs)
    (keyData : Str) (key : Key) (signature : Str)
    (hkey : Key.construct X alg keyData = Except.ok key)
    (hsign : key.sign (X.encodeSegment (JWT.construct alg claims header).m_header ++ ['.']
      ++ X.encodeSegment claims) = Except.ok signature)
    (hdot1 : '.' ∉ X.encodeSegment (JWT.construct alg claims header).m_header)
    (hdot2 : '.' ∉ X.encodeSegment claims)
    (hdec1 : X.decodeSegment (X.encodeSegment (JWT.construct alg claims header).m_header)
      = Except.ok (JWT.construct alg claims header).m_header)
    (hdec2 : X.decodeSegment (X.encodeSegment claims) = Except.ok claims) :
    ∃ t, (JWT.construct alg claims header).token X keyData = Except.ok t ∧
      JWT.parse X t = Except.ok (JWT.construct alg claims header) := by
  have halg : (JWT.construct alg claims header).m_alg = alg := rfl
  have hcl : (JWT.construct alg claims header).m_claims = claims := rfl
  by_cases hempty : signature = []
  · refine ⟨X.encodeSegment (JWT.construct alg claims header).m_header ++ ['.']
      ++ X.encodeSegment claims, ?_, ?_⟩
    · simp only [JWT.token, halg, hcl, hkey, hsign, hempty, if_true]
    · exact parse_built X alg claims header _ [] (split_two_append _ _ hdot1 hdot2) hdec1 hdec2
  · refine ⟨X.encodeSegment (JWT.construct alg claims header).m_header ++ ['.']
      ++ X.encodeSegment claims ++ ['.'] ++ signature, ?_, ?_⟩
    · simp only [JWT.token, halg, hcl, hkey, hsign, hempty, if_false]
    · exact parse_built X alg claims header _ signature
        (split_three_append _ _ signature hdot1 hdot2) hdec1 hdec2

/-- Witness of C20 amended: the sample claims under `HS256` and the secret
"secret". -/
theorem token_then_parse_witness :
    ∃ t, (JWT.construct Algorithm.HS256 Sample.claims ⟨[]⟩).token Sample.collab "secret".toList
        = Except.ok t ∧
      JWT.parse Sample.collab t = Except.ok (JWT.construct Algorithm.HS256 Sample.claims ⟨[]⟩) :=
  token_then_parse Sample.collab Algorithm.HS256 Sample.claims ⟨[]⟩ "secret".toList
    Sample.key Sample.part3 (by rfl) (by decide) (by decide) (by decide) (by decide) (by decide)

end JWTXX
